import Mathlib

/-!
Verification development for the view-descriptor core of a rich-text
editor view (files `src/viewdesc.ts`, plus the coordinate helpers of the
unnamed companion source file).

The TypeScript sources are shallowly embedded below.  Document-model
nodes, marks and decorations are external collaborators of the verified
core; they are modelled by concrete inductive types exposing exactly the
interface the core consumes (structural equality `eq`, `nodeSize`,
`sameMarkup`, `locals` / `forChild` queries).  The live host (DOM) tree
is external mutable state; the embedding carries, on each descriptor,
the host observations the code consults (node identity, current text
value, detachment flags), and models host-dependent primitives as
explicit inputs.
-/

namespace ViewDescModel

/-- A mark type: identity plus the `spec.spanning` trait consumed by
`syncToMarks`. -/
structure MarkType where
  id : Nat
  spanning : Bool
deriving DecidableEq

/-- A mark instance (`mark.type` + attributes); `mark.eq` is structural
equality. -/
structure MarkT where
  type : MarkType
  attrs : Nat
deriving DecidableEq

/-- Document node, mirroring the prosemirror-model interface the view
consumes: text runs and element nodes with type, attributes, marks,
leaf/inline flags and content. -/
inductive PNode where
  | text (marks : List MarkT) (str : List Char)
  | elem (typeId : Nat) (attrs : Nat) (marks : List MarkT)
      (isLeaf : Bool) (inlineContent : Bool) (isBlock : Bool)
      (content : List PNode)

mutual
def pnodeDecEq : (a b : PNode) → Decidable (a = b)
  | .text m s, .text m2 s2 =>
    if h1 : m = m2 then
      if h2 : s = s2 then isTrue (by rw [h1, h2])
      else isFalse (fun h => by cases h; exact h2 rfl)
    else isFalse (fun h => by cases h; exact h1 rfl)
  | .text _ _, .elem _ _ _ _ _ _ _ => isFalse (fun h => PNode.noConfusion h)
  | .elem _ _ _ _ _ _ _, .text _ _ => isFalse (fun h => PNode.noConfusion h)
  | .elem t a m l i b c, .elem t2 a2 m2 l2 i2 b2 c2 =>
    if h1 : t = t2 then
     if h2 : a = a2 then
      if h3 : m = m2 then
       if h4 : l = l2 then
        if h5 : i = i2 then
         if h6 : b = b2 then
          match pnodeListDecEq c c2 with
          | isTrue h7 => isTrue (by rw [h1, h2, h3, h4, h5, h6, h7])
          | isFalse h7 => isFalse (fun h => by cases h; exact h7 rfl)
         else isFalse (fun h => by cases h; exact h6 rfl)
        else isFalse (fun h => by cases h; exact h5 rfl)
       else isFalse (fun h => by cases h; exact h4 rfl)
      else isFalse (fun h => by cases h; exact h3 rfl)
     else isFalse (fun h => by cases h; exact h2 rfl)
    else isFalse (fun h => by cases h; exact h1 rfl)

def pnodeListDecEq : (a b : List PNode) → Decidable (a = b)
  | [], [] => isTrue rfl
  | [], _ :: _ => isFalse (fun h => List.noConfusion h)
  | _ :: _, [] => isFalse (fun h => List.noConfusion h)
  | x :: xs, y :: ys =>
    match pnodeDecEq x y, pnodeListDecEq xs ys with
    | isTrue h1, isTrue h2 => isTrue (by rw [h1, h2])
    | isFalse h1, _ => isFalse (fun h => by cases h; exact h1 rfl)
    | _, isFalse h2 => isFalse (fun h => by cases h; exact h2 rfl)
end

instance : DecidableEq PNode := pnodeDecEq

namespace PNode

def isText : PNode → Bool
  | .text _ _ => true
  | .elem _ _ _ _ _ _ _ => false

def isLeaf : PNode → Bool
  | .text _ _ => true
  | .elem _ _ _ l _ _ _ => l

def marks : PNode → List MarkT
  | .text m _ => m
  | .elem _ _ m _ _ _ _ => m

def content : PNode → List PNode
  | .text _ _ => []
  | .elem _ _ _ _ _ _ c => c

def textStr : PNode → List Char
  | .text _ s => s
  | .elem _ _ _ _ _ _ _ => []

def inlineContent : PNode → Bool
  | .text _ _ => false
  | .elem _ _ _ _ i _ _ => i

def isBlock : PNode → Bool
  | .text _ _ => false
  | .elem _ _ _ _ _ b _ => b

/-- `node.isTextblock`: a block node with inline content. -/
def isTextblock (n : PNode) : Bool := n.isBlock && n.inlineContent

mutual
/-- `node.nodeSize` of the document model: text length for text nodes,
1 for other leaves, content size + 2 otherwise. -/
def nodeSize : PNode → Nat
  | .text _ s => s.length
  | .elem _ _ _ l _ _ c => if l then 1 else contentSize c + 2

/-- `fragment.size`: the sum of the children's `nodeSize`. -/
def contentSize : List PNode → Nat
  | [] => 0
  | n :: ns => nodeSize n + contentSize ns
end

/-- `node.sameMarkup(other)`: same type, attributes and marks; content
and text are not compared. -/
def sameMarkup : PNode → PNode → Bool
  | .text m _, .text m2 _ => m == m2
  | .elem t a m l i b _, .elem t2 a2 m2 l2 i2 b2 _ =>
      t == t2 && a == a2 && m == m2 && l == l2 && i == i2 && b == b2
  | _, _ => false

end PNode

/-- A decoration type (widget type or inline/node attribute overlay
type); `type.eq` is identity on the stored data, and widget types carry
the ordering `side`. -/
structure DecoType where
  id : Nat
  side : Int
  /-- Whether the widget type's prebuilt `toDOM` node currently has no
  parent in the host tree (the `!next.widget.type.toDOM.parentNode`
  observation made by `placeWidget`). -/
  toDomDetached : Bool
deriving DecidableEq

/-- A decoration: a `[f, t)` range (widgets have `f = t`) with its
type and the optional `spec.marks` a widget declares. -/
structure Deco where
  f : Int
  t : Int
  type : DecoType
  specMarks : Option (List MarkT)
deriving DecidableEq

/-- Decoration set, modelled at its consumed interface: `locals` of the
current node plus the `forChild` subsets keyed by child offset.
Equality (`DecorationSet.eq`) is structural. -/
inductive DecoSet where
  | mk (locals : List Deco) (children : List (Int × DecoSet))

mutual
def decoSetDecEq : (a b : DecoSet) → Decidable (a = b)
  | .mk l c, .mk l2 c2 =>
    if h1 : l = l2 then
      match decoSetEntriesDecEq c c2 with
      | isTrue h2 => isTrue (by rw [h1, h2])
      | isFalse h2 => isFalse (fun h => by cases h; exact h2 rfl)
    else isFalse (fun h => by cases h; exact h1 rfl)

def decoSetEntriesDecEq :
    (a b : List (Int × DecoSet)) → Decidable (a = b)
  | [], [] => isTrue rfl
  | [], _ :: _ => isFalse (fun h => List.noConfusion h)
  | _ :: _, [] => isFalse (fun h => List.noConfusion h)
  | (i, x) :: xs, (j, y) :: ys =>
    if h1 : i = j then
      match decoSetDecEq x y, decoSetEntriesDecEq xs ys with
      | isTrue h2, isTrue h3 => isTrue (by rw [h1, h2, h3])
      | isFalse h2, _ => isFalse (fun h => by cases h; exact h2 rfl)
      | _, isFalse h3 => isFalse (fun h => by cases h; exact h3 rfl)
    else isFalse (fun h => by cases h; exact h1 rfl)
end

instance : DecidableEq DecoSet := decoSetDecEq

namespace DecoSet

def locals : DecoSet → List Deco
  | .mk l _ => l

def childEntries : DecoSet → List (Int × DecoSet)
  | .mk _ c => c

def empty : DecoSet := .mk [] []

/-- `deco.forChild(offset, child)`: the subset relevant to the child at
the given offset. -/
def forChild (d : DecoSet) (offset : Int) : DecoSet :=
  match (d.childEntries.find? (fun e => e.1 == offset)) with
  | some e => e.2
  | none => DecoSet.empty

end DecoSet

/-- The dirty levels of `viewdesc.ts`. -/
def NOT_DIRTY : Nat := 0
def CHILD_DIRTY : Nat := 1
def CONTENT_DIRTY : Nat := 2
def NODE_DIRTY : Nat := 3

/-- Bookkeeping shared by every descriptor variant: identity (object
identity of the JS descriptor), dirty level, the identity of its outer
host node, and the host observations `markDirty` / `updateNextNode`
consult (`dom.parentNode != parent.contentDOM`, `contentLost`). -/
structure DescCore where
  id : Nat
  dirty : Nat
  domId : Nat
  /-- Identity of `this.nodeDOM` (the undecorated host node; equal to
  `dom` unless outer decorations wrapped it). -/
  nodeDomId : Nat
  /-- Identity of `this.contentDOM`; meaningful only for descriptors
  that have one (`hasContentDOM`). -/
  contentDomId : Nat
  domParentMismatch : Bool
  contentLost : Bool
deriving DecidableEq

/-- Descriptor variants: widget, mark wrapper, node-backed (element or
text; text descriptors are the node descriptors whose document node is
a text run, and additionally record their host text node's current
value), and the trailing layout-hack descriptor. -/
inductive Desc where
  | widget (core : DescCore) (w : Deco)
  | mark (core : DescCore) (mark : MarkT) (children : List Desc)
  | node (core : DescCore) (pnode : PNode) (outerDeco : List Deco)
      (innerDeco : DecoSet) (children : List Desc)
      (domTextValue : List Char)
  | hack (core : DescCore)

mutual
def descDecEq : (a b : Desc) → Decidable (a = b)
  | .widget c w, .widget c2 w2 =>
    if h1 : c = c2 then
      if h2 : w = w2 then isTrue (by rw [h1, h2])
      else isFalse (fun h => by cases h; exact h2 rfl)
    else isFalse (fun h => by cases h; exact h1 rfl)
  | .mark c m cs, .mark c2 m2 cs2 =>
    if h1 : c = c2 then
      if h2 : m = m2 then
        match descListDecEq cs cs2 with
        | isTrue h3 => isTrue (by rw [h1, h2, h3])
        | isFalse h3 => isFalse (fun h => by cases h; exact h3 rfl)
      else isFalse (fun h => by cases h; exact h2 rfl)
    else isFalse (fun h => by cases h; exact h1 rfl)
  | .node c n o i cs t, .node c2 n2 o2 i2 cs2 t2 =>
    if h1 : c = c2 then
     if h2 : n = n2 then
      if h3 : o = o2 then
       if h4 : i = i2 then
        if h6 : t = t2 then
          match descListDecEq cs cs2 with
          | isTrue h5 => isTrue (by rw [h1, h2, h3, h4, h5, h6])
          | isFalse h5 => isFalse (fun h => by cases h; exact h5 rfl)
        else isFalse (fun h => by cases h; exact h6 rfl)
       else isFalse (fun h => by cases h; exact h4 rfl)
      else isFalse (fun h => by cases h; exact h3 rfl)
     else isFalse (fun h => by cases h; exact h2 rfl)
    else isFalse (fun h => by cases h; exact h1 rfl)
  | .hack c, .hack c2 =>
    if h1 : c = c2 then isTrue (by rw [h1])
    else isFalse (fun h => by cases h; exact h1 rfl)
  | .widget _ _, .mark _ _ _ => isFalse (fun h => Desc.noConfusion h)
  | .widget _ _, .node _ _ _ _ _ _ => isFalse (fun h => Desc.noConfusion h)
  | .widget _ _, .hack _ => isFalse (fun h => Desc.noConfusion h)
  | .mark _ _ _, .widget _ _ => isFalse (fun h => Desc.noConfusion h)
  | .mark _ _ _, .node _ _ _ _ _ _ => isFalse (fun h => Desc.noConfusion h)
  | .mark _ _ _, .hack _ => isFalse (fun h => Desc.noConfusion h)
  | .node _ _ _ _ _ _, .widget _ _ => isFalse (fun h => Desc.noConfusion h)
  | .node _ _ _ _ _ _, .mark _ _ _ => isFalse (fun h => Desc.noConfusion h)
  | .node _ _ _ _ _ _, .hack _ => isFalse (fun h => Desc.noConfusion h)
  | .hack _, .widget _ _ => isFalse (fun h => Desc.noConfusion h)
  | .hack _, .mark _ _ _ => isFalse (fun h => Desc.noConfusion h)
  | .hack _, .node _ _ _ _ _ _ => isFalse (fun h => Desc.noConfusion h)

def descListDecEq : (a b : List Desc) → Decidable (a = b)
  | [], [] => isTrue rfl
  | [], _ :: _ => isFalse (fun h => List.noConfusion h)
  | _ :: _, [] => isFalse (fun h => List.noConfusion h)
  | x :: xs, y :: ys =>
    match descDecEq x y, descListDecEq xs ys with
    | isTrue h1, isTrue h2 => isTrue (by rw [h1, h2])
    | isFalse h1, _ => isFalse (fun h => by cases h; exact h1 rfl)
    | _, isFalse h2 => isFalse (fun h => by cases h; exact h2 rfl)
end

instance : DecidableEq Desc := descDecEq

namespace Desc

def core : Desc → DescCore
  | .widget c _ => c
  | .mark c _ _ => c
  | .node c _ _ _ _ _ => c
  | .hack c => c

def dirty (d : Desc) : Nat := d.core.dirty

def descId (d : Desc) : Nat := d.core.id

def domId (d : Desc) : Nat := d.core.domId

def children : Desc → List Desc
  | .widget _ _ => []
  | .mark _ _ cs => cs
  | .node _ _ _ _ cs _ => cs
  | .hack _ => []

/-- The document node a descriptor mirrors (`this.node`); only
node-backed descriptors have one. -/
def pnode? : Desc → Option PNode
  | .node _ n _ _ _ _ => some n
  | _ => none

def isMark : Desc → Bool
  | .mark _ _ _ => true
  | _ => false

def isNodeBacked : Desc → Bool
  | .node _ _ _ _ _ _ => true
  | _ => false

def withDirty (d : Desc) (lvl : Nat) : Desc :=
  match d with
  | .widget c w => .widget { c with dirty := lvl } w
  | .mark c m cs => .mark { c with dirty := lvl } m cs
  | .node c n o i cs t => .node { c with dirty := lvl } n o i cs t
  | .hack c => .hack { c with dirty := lvl }

def withChildren (d : Desc) (cs : List Desc) : Desc :=
  match d with
  | .widget c w => .widget c w
  | .mark c m _ => .mark c m cs
  | .node c n o i _ t => .node c n o i cs t
  | .hack c => .hack c

mutual
/-- `ViewDesc.size`, with the `NodeViewDesc` override: node-backed
descriptors report their document node's `nodeSize`, the others sum
their children. -/
def size : Desc → Nat
  | .node _ n _ _ _ _ => n.nodeSize
  | .widget _ _ => 0
  | .hack _ => 0
  | .mark _ _ cs => sizeList cs

def sizeList : List Desc → Nat
  | [] => 0
  | d :: ds => size d + sizeList ds
end

/-- `ViewDesc.border`, with the `NodeViewDesc` override: 1 for non-leaf
node-backed descriptors, 0 otherwise. -/
def border : Desc → Nat
  | .node _ n _ _ _ _ => if n.isLeaf then 0 else 1
  | _ => 0

/-- Whether the descriptor owns a content host node: non-leaf
node-backed descriptors and mark wrappers do, text / widget / hack
descriptors do not. -/
def hasContentDOM : Desc → Bool
  | .node _ n _ _ _ _ => !n.isLeaf
  | .mark _ _ _ => true
  | _ => false

/-- `(this.widget.type as WidgetType).side < 0` via `beforePosition`. -/
def beforePosition : Desc → Bool
  | .widget _ w => decide (w.type.side < 0)
  | _ => false

/-- `sameOuterDeco(a, b)`: equal length and pairwise equal types. -/
def sameOuterDeco (a b : List Deco) : Bool :=
  a.length == b.length &&
    (List.zip a b).all (fun p => p.1.type == p.2.type)

/-- `WidgetViewDesc.matchesWidget`. -/
def matchesWidget (d : Desc) (w : Deco) : Bool :=
  match d with
  | .widget c stored => c.dirty == NOT_DIRTY && w.type == stored.type
  | _ => false

/-- `MarkViewDesc.matchesMark`. -/
def matchesMark (d : Desc) (m : MarkT) : Bool :=
  match d with
  | .mark c stored _ => c.dirty != NODE_DIRTY && stored == m
  | _ => false

/-- `NodeViewDesc.matchesNode`. -/
def matchesNode (d : Desc) (n : PNode) (outerDeco : List Deco)
    (innerDeco : DecoSet) : Bool :=
  match d with
  | .node c stored storedOuter storedInner _ _ =>
      c.dirty == NOT_DIRTY && n == stored &&
        sameOuterDeco outerDeco storedOuter && innerDeco == storedInner
  | _ => false

/-- `BRHackViewDesc.matchesHack` (true on the hack variant only). -/
def matchesHack (d : Desc) : Bool :=
  match d with
  | .hack c => c.dirty == NOT_DIRTY
  | _ => false

end Desc

/-! ### markDirty

`ViewDesc.markDirty` walks the children, translating the dirtied range
and either marking an overlapped-but-not-contained child
`NODE_DIRTY`, or descending into the child whose border-adjusted span
contains the range (with the `NODE_DIRTY` short-circuit when the range
is exactly the child's interior and the child's host content is lost or
detached), finally setting the receiver's own level.
`MarkViewDesc.markDirty` additionally transfers the level assigned to a
mark wrapper onto the nearest node-backed ancestor (raising it if
larger) and resets the wrapper itself to `NOT_DIRTY`.  The functional
embedding returns the rewritten descriptor together with the pending
transfer for the nearest node-backed ancestor. -/

/-- The overlap test of the `markDirty` loop:
`offset == end ? from <= end && to >= offset : from < end && to > offset`. -/
def mdOverlap (f t offset endP : Int) : Prop :=
  (offset = endP ∧ f ≤ endP ∧ offset ≤ t) ∨
    (offset ≠ endP ∧ f < endP ∧ offset < t)

instance (f t offset endP : Int) : Decidable (mdOverlap f t offset endP) := by
  unfold mdOverlap
  infer_instance

mutual
/-- Dispatching `markDirty`: the `ViewDesc` body plus the
`MarkViewDesc` override.  Returns the updated descriptor and the dirty
level drained to the nearest node-backed ancestor (0 when nothing is
drained).  On a childless descriptor the loop falls through and the
receiver becomes `CONTENT_DIRTY`. -/
def markDirtyD : Desc → Int → Int → Desc × Nat
  | .node c n o i cs tv, f, t =>
      let r := markDirtyChildren f t 0 cs
      (.node { c with dirty := max (r.2.1.getD CONTENT_DIRTY) r.2.2 }
        n o i r.1 tv, 0)
  | .mark c m cs, f, t =>
      let r := markDirtyChildren f t 0 cs
      (.mark { c with dirty := NOT_DIRTY } m r.1,
        max (r.2.1.getD CONTENT_DIRTY) r.2.2)
  | .widget c w, _, _ => (.widget { c with dirty := CONTENT_DIRTY } w, 0)
  | .hack c, _, _ => (.hack { c with dirty := CONTENT_DIRTY }, 0)

/-- The loop of `ViewDesc.markDirty` over the child array: returns the
rewritten children, `some lvl` when the contained-in-a-child branch
assigned `lvl` to the receiver and returned early (`none` when the loop
fell through, in which case the receiver gets `CONTENT_DIRTY`), and the
level drained by mark-wrapper descendants for the nearest node-backed
ancestor. -/
def markDirtyChildren (f t offset : Int) :
    List Desc → List Desc × Option Nat × Nat
  | [] => ([], none, 0)
  | child :: rest =>
      let endP := offset + (Desc.size child : Int)
      if mdOverlap f t offset endP then
        let startInside := offset + (Desc.border child : Int)
        let endInside := endP - (Desc.border child : Int)
        if startInside ≤ f ∧ t ≤ endInside then
          let selfLvl := if f = offset ∨ t = endP
            then CONTENT_DIRTY else CHILD_DIRTY
          if f = startInside ∧ t = endInside ∧
              (child.core.contentLost || child.core.domParentMismatch)
                = true then
            (child.withDirty NODE_DIRTY :: rest, some selfLvl, 0)
          else
            let r := markDirtyD child (f - startInside) (t - startInside)
            (r.1 :: rest, some selfLvl, r.2)
        else
          let r := markDirtyChildren f t endP rest
          (child.withDirty NODE_DIRTY :: r.1, r.2.1, r.2.2)
      else
        let r := markDirtyChildren f t endP rest
        (child :: r.1, r.2.1, r.2.2)
end

/-- One step of the `markDirty` descent, as recorded by `mdTrace`:
the child index entered (or `NODE_DIRTY`-marked in the short-circuit
case), the receiver-local range, the child's offset, and the child's
border and size. -/
structure MdStep where
  idx : Nat
  f : Int
  t : Int
  offset : Int
  childBorder : Nat
  childSize : Nat
deriving DecidableEq

mutual
/-- The descent path of `markDirty`: the steps taken into contained
children, the local range at the final descriptor, and whether the
descent ended in the `NODE_DIRTY` short-circuit (range exactly a
child's interior with lost/detached host content). -/
def mdTrace : Desc → Int → Int → List MdStep × Int × Int × Bool
  | .node _ _ _ _ cs _, f, t => mdTraceChildren f t 0 0 cs
  | .mark _ _ cs, f, t => mdTraceChildren f t 0 0 cs
  | .widget _ _, f, t => ([], f, t, false)
  | .hack _, f, t => ([], f, t, false)

def mdTraceChildren (f t offset : Int) (i : Nat) :
    List Desc → List MdStep × Int × Int × Bool
  | [] => ([], f, t, false)
  | child :: rest =>
      let endP := offset + (Desc.size child : Int)
      if mdOverlap f t offset endP then
        let startInside := offset + (Desc.border child : Int)
        let endInside := endP - (Desc.border child : Int)
        if startInside ≤ f ∧ t ≤ endInside then
          let step : MdStep :=
            ⟨i, f, t, offset, Desc.border child, Desc.size child⟩
          if f = startInside ∧ t = endInside ∧
              (child.core.contentLost || child.core.domParentMismatch)
                = true then
            ([step], f - startInside, t - startInside, true)
          else
            let r := mdTrace child (f - startInside) (t - startInside)
            (step :: r.1, r.2.1, r.2.2.1, r.2.2.2)
        else mdTraceChildren f t endP (i + 1) rest
      else mdTraceChildren f t endP (i + 1) rest
end

/-- Whether the `markDirty` loop reaches relative child position `j`
(absolute `i + j`): no earlier child took the containment branch, i.e.
the first recorded descent step, if any, lies strictly past it. -/
def mdReaches (f t offset : Int) (i j : Nat) (cs : List Desc) : Bool :=
  match (mdTraceChildren f t offset i cs).1.head? with
  | some step => decide (i + j < step.idx)
  | none => true

/-- Descriptor lookup along a child-index path. -/
def descAtPath : Desc → List Nat → Option Desc
  | d, [] => some d
  | d, i :: p =>
      match d.children.get? i with
      | some c => descAtPath c p
      | none => none

/-- The sum of the sizes of the first `j` children, i.e. the offset of
child `j` inside its parent's content. -/
def offsetOfChild (cs : List Desc) (j : Nat) : Int :=
  (Desc.sizeList (cs.take j) : Int)

/-- Correctness package for one `markDirty` call on a descriptor:
(1) every recorded descent step enters a child whose border-adjusted
span contains the receiver-local range; (2) the steps describe real
children of the original tree (right border, size and offset);
(3) after the call, every strict ancestor of the final descriptor that
is node-backed is at least `CHILD_DIRTY` and every mark-wrapper
ancestor is reset to `NOT_DIRTY` (its level having been drained);
(4) the final descriptor ends `NODE_DIRTY` in the short-circuit case,
and otherwise `CONTENT_DIRTY` when not a mark wrapper (`NOT_DIRTY`
when it is one); (5) when the descent fell through, no child of the
final descriptor both overlaps the final local range and contains it
within its border-adjusted span (so the final descriptor is the deepest
container). -/
def MainProp (d : Desc) (f t : Int) : Prop :=
  let d2 := (markDirtyD d f t).1
  let tr := (mdTrace d f t).1
  let lf := (mdTrace d f t).2.1
  let lt := (mdTrace d f t).2.2.1
  let cb := (mdTrace d f t).2.2.2
  let path := tr.map MdStep.idx
  (∀ s ∈ tr, s.offset + (s.childBorder : Int) ≤ s.f ∧
      s.t ≤ s.offset + (s.childSize : Int) - (s.childBorder : Int)) ∧
  (∀ k s, tr.get? k = some s → ∃ x child,
      descAtPath d (path.take k) = some x ∧
      x.children.get? s.idx = some child ∧
      s.childBorder = child.border ∧ s.childSize = child.size ∧
      s.offset = offsetOfChild x.children s.idx) ∧
  (∀ k, k < tr.length → ∃ x, descAtPath d2 (path.take k) = some x ∧
      (x.isNodeBacked = true → CHILD_DIRTY ≤ x.dirty) ∧
      (x.isMark = true → x.dirty = NOT_DIRTY)) ∧
  (∃ x, descAtPath d2 path = some x ∧
      (cb = true → x.dirty = NODE_DIRTY) ∧
      (cb = false → (x.isMark = true → x.dirty = NOT_DIRTY) ∧
        (x.isMark = false → x.dirty = CONTENT_DIRTY))) ∧
  (cb = false → ∃ x, descAtPath d path = some x ∧
      ∀ j child, x.children.get? j = some child →
        ¬(mdOverlap lf lt (offsetOfChild x.children j)
            (offsetOfChild x.children j + (child.size : Int)) ∧
          offsetOfChild x.children j + (child.border : Int) ≤ lf ∧
          lt ≤ offsetOfChild x.children j + (child.size : Int)
            - (child.border : Int)))

/-- Correctness package for the `markDirty` child loop on a suffix of
the child array starting at absolute index `i` and offset `offset`:
either the loop falls through (no overlapping, containing child; no
early self-assignment; no drained level) or it descends at a recorded
step, in which case the step describes the child at that index, the
receiver was assigned at least `CHILD_DIRTY`, and the rewritten child
array holds, at the step's index, either the `NODE_DIRTY`-marked child
(short-circuit) or the child's own recursive `markDirty` result. -/
def ListProp (f t offset : Int) (i : Nat) (cs : List Desc) : Prop :=
  let L1 := (markDirtyChildren f t offset cs).1
  let LA := (markDirtyChildren f t offset cs).2.1
  let LP := (markDirtyChildren f t offset cs).2.2
  let tr := (mdTraceChildren f t offset i cs).1
  let lf := (mdTraceChildren f t offset i cs).2.1
  let lt := (mdTraceChildren f t offset i cs).2.2.1
  let cb := (mdTraceChildren f t offset i cs).2.2.2
  (tr = [] → LA = none ∧ LP = 0 ∧ lf = f ∧ lt = t ∧ cb = false ∧
    ∀ j child, cs.get? j = some child →
      ¬(mdOverlap f t (offset + (Desc.sizeList (cs.take j) : Int))
          (offset + (Desc.sizeList (cs.take j) : Int) + (child.size : Int)) ∧
        offset + (Desc.sizeList (cs.take j) : Int) + (child.border : Int)
          ≤ f ∧
        t ≤ offset + (Desc.sizeList (cs.take j) : Int) + (child.size : Int)
          - (child.border : Int))) ∧
  (∀ step tr2, tr = step :: tr2 →
    i ≤ step.idx ∧
    ∃ child, cs.get? (step.idx - i) = some child ∧
      step.f = f ∧ step.t = t ∧
      step.offset = offset + (Desc.sizeList (cs.take (step.idx - i)) : Int) ∧
      step.childBorder = child.border ∧ step.childSize = child.size ∧
      step.offset + (child.border : Int) ≤ f ∧
      t ≤ step.offset + (child.size : Int) - (child.border : Int) ∧
      (∃ lvl, LA = some lvl ∧ CHILD_DIRTY ≤ lvl) ∧
      ((cb = true ∧ tr2 = [] ∧
         lf = f - (step.offset + (child.border : Int)) ∧
         lt = t - (step.offset + (child.border : Int)) ∧
         L1.get? (step.idx - i) = some (child.withDirty NODE_DIRTY) ∧
         LP = 0) ∨
       (mdTrace child (f - (step.offset + (child.border : Int)))
           (t - (step.offset + (child.border : Int))) = (tr2, lf, lt, cb) ∧
         L1.get? (step.idx - i) =
           some (markDirtyD child (f - (step.offset + (child.border : Int)))
             (t - (step.offset + (child.border : Int)))).1 ∧
         LP = (markDirtyD child (f - (step.offset + (child.border : Int)))
             (t - (step.offset + (child.border : Int)))).2 ∧
         MainProp child (f - (step.offset + (child.border : Int)))
           (t - (step.offset + (child.border : Int))))))

/-! ### Position and host-location mapping

`domFromPos`, `posFromDOM` and `localPosFromDOM` of `viewdesc.ts`.
Host-tree-dependent observations (`childNodes.length`, `domIndex`,
the base-class `localPosFromDOM` heuristics over unmanaged host
content) are external inputs, supplied through `Host` records or
explicit parameters. -/

/-- The error taxonomy of the position mapper: `InvalidPosition` is the
programming-error condition `domFromPos` throws
(`new Error("Invalid position " + pos)`). -/
inductive PosErr where
  | invalidPosition (pos : Int)
deriving DecidableEq

/-- Host-tree observations consumed by `domFromPos`: the child count of
a host node (`contentDOM.childNodes.length`) and the sibling index of a
host node (`domIndex`), keyed by host-node identity. -/
structure Host where
  childCount : Nat → Int
  domIndex : Nat → Int

/-- The skip loop of `domFromPos`'s boundary case: advance past
children that render before their position (`beforePosition`) or whose
host node is not directly under this descriptor's content host node,
returning the first remaining child if any. -/
def domAfterFilter : List Desc → Option Desc
  | [] => none
  | c :: rest =>
      if c.beforePosition || c.core.domParentMismatch then
        domAfterFilter rest
      else some c

mutual
/-- `ViewDesc.domFromPos` with its overrides: text descriptors answer
inside their backing host text node (`TextViewDesc.domFromPos`);
descriptors without a content host node answer their outer host node at
offset 0; the others run the child-scanning loop inside their content
host node. -/
def domFromPosD (host : Host) : Desc → Int → Except PosErr (Nat × Int)
  | .node c n _ _ cs _, pos =>
      if n.isText then .ok (c.nodeDomId, pos)
      else if n.isLeaf then .ok (c.domId, 0)
      else domFromPosLoop host c.contentDomId pos 0 cs
  | .mark c _ cs, pos => domFromPosLoop host c.contentDomId pos 0 cs
  | .widget c _, _ => .ok (c.domId, 0)
  | .hack c, _ => .ok (c.domId, 0)

/-- The loop of `ViewDesc.domFromPos`: at a child-prefix boundary equal
to `pos`, answer inside the content host node (after the skip loop);
running out of children raises `InvalidPosition`; otherwise descend
past the border of the child whose span holds `pos`. -/
def domFromPosLoop (host : Host) (contentId : Nat) (pos : Int) :
    Int → List Desc → Except PosErr (Nat × Int)
  | offset, [] =>
      if offset = pos then
        .ok (contentId, host.childCount contentId)
      else .error (.invalidPosition pos)
  | offset, child :: rest =>
      if offset = pos then
        match domAfterFilter (child :: rest) with
        | none => .ok (contentId, host.childCount contentId)
        | some c => .ok (contentId, host.domIndex c.core.domId)
      else
        if pos < offset + (Desc.size child : Int) then
          domFromPosD host child (pos - offset - (Desc.border child : Int))
        else
          domFromPosLoop host contentId pos
            (offset + (Desc.size child : Int)) rest
end

/-- `posAtStart` of the descriptor at a path: the root starts at 0, and
a child starts at its parent's start plus the sizes of the preceding
siblings (`posBeforeChild`) plus its own border. -/
def posAtStartAux : Desc → List Nat → Int → Option Int
  | _, [], acc => some acc
  | d, j :: p, acc =>
      match d.children.get? j with
      | some c =>
          posAtStartAux c p (acc + offsetOfChild d.children j +
            (Desc.border c : Int))
      | none => none

/-- `TextViewDesc.localPosFromDOM` for the text descriptor at a path:
when the queried host node is the backing text node, the answer is the
descriptor's start position plus the DOM offset clamped by `Math.min`
to the document text's length; otherwise the base-class heuristics run,
whose host-dependent outcome is supplied as `superResult`. -/
def textLocalPosFromDOM (root : Desc) (p : List Nat) (dom : Nat)
    (offset : Int) (superResult : Int) : Option Int :=
  match descAtPath root p, posAtStartAux root p 0 with
  | some (.node c n _ _ _ _), some start =>
      if n.isText then
        some (if dom = c.nodeDomId then
            start + min offset (n.textStr.length : Int)
          else superResult)
      else none
  | _, _ => none

/-- `ViewDesc.getDesc`: resolve a host node's descriptor association —
its back-link path, when it has one — inside this tree; a missing or
stale (dangling-path) association resolves to nothing. -/
def getDescW (root : Desc) : Option (List Nat) → Option Desc
  | none => none
  | some p => descAtPath root p

/-- `ViewDesc.posFromDOM`: scan the queried host location's ancestor
chain (each entry carrying that host node's descriptor association as a
path into this tree, or nothing) for the first association that
resolves inside this tree (`getDesc`), delegate to that descriptor's
`localPosFromDOM` — a host-dependent computation supplied as
`localPos` — and return the absent sentinel -1 when no ancestor
carries one. -/
def posFromDOMW (root : Desc) (localPos : Desc → Int) :
    List (Option (List Nat)) → Int
  | [] => -1
  | a :: rest =>
      match getDescW root a with
      | some d => localPos d
      | none => posFromDOMW root localPos rest

/-! ### Reversible probes

`withFlushedState` and `endOfTextblockHorizontal` of the coordinate
helper file.  The externally visible editor state a probe may mutate is
the applied view state, the focused element and the native selection;
host-dependent outcomes (`Selection.modify`'s caret movement,
`domAfterPos`, `Node.contains`) are supplied as inputs. -/

/-- A native selection range (start/end host locations). -/
structure SelRange where
  startNode : Nat
  startOff : Int
  endNode : Nat
  endOff : Int
deriving DecidableEq

/-- The native selection: its ranges, focus location, and the
Firefox-only `caretBidiLevel`. -/
structure NativeSel where
  ranges : List SelRange
  focusNode : Nat
  focusOff : Int
  bidiLevel : Option Int
deriving DecidableEq

/-- The externally visible editor state a reversible probe touches:
the applied view state (by identity), the focused element
(`root.activeElement`, absent when nothing is focused), and the native
selection. -/
structure EdState where
  viewState : Nat
  active : Option Nat
  sel : NativeSel
deriving DecidableEq

/-- `sel.removeAllRanges(); sel.addRange(oldRange)` followed by the
`caretBidiLevel` restore (`if (oldBidiLevel != null) ...`): the ranges
become exactly the old range, the focus moves to its end, and the bidi
level is restored when one had been captured. -/
def addRangeRestore (oldRange : SelRange) (oldBidi : Option Int)
    (s : NativeSel) : NativeSel :=
  { ranges := [oldRange], focusNode := oldRange.endNode,
    focusOff := oldRange.endOff,
    bidiLevel := match oldBidi with
      | some b => some b
      | none => s.bidiLevel }

/-- Host-raised failure inside a probe (e.g. `domAfterPos` throwing
`RangeError("No node after pos ...")`). -/
inductive HostErr where
  | rangeError
deriving DecidableEq

/-- `withFlushedState(view, state, f)`: capture the applied state and
the focused element, apply the target state and focus the editor when
they differ, run `f`, and in a `finally` block reapply the captured
state and refocus the captured element (when there was one). -/
def withFlushedState (viewDom : Nat) (stateId : Nat)
    (f : EdState → Except HostErr Bool × EdState) (st : EdState) :
    Except HostErr Bool × EdState :=
  let viewState := st.viewState
  let active := st.active
  let st1 := if viewState ≠ stateId
    then { st with viewState := stateId } else st
  let st2 := if active ≠ some viewDom
    then { st1 with active := some viewDom } else st1
  let r := f st2
  let st3 := if viewState ≠ stateId
    then { r.2 with viewState := viewState } else r.2
  let st4 := if active ≠ some viewDom ∧ active ≠ none
    then { st3 with active := active } else st3
  (r.1, st4)

/-- The flush half of `withFlushedState`: apply the target state when
it differs from the applied one, and focus the editor when it is not
already the active element. -/
def flushedState (viewDom stateId : Nat) (st : EdState) : EdState :=
  let st1 := if st.viewState ≠ stateId
    then { st with viewState := stateId } else st
  if st.active ≠ some viewDom then { st1 with active := some viewDom }
  else st1

/-- The finally half of `withFlushedState`: reapply the captured state
when it had differed, and refocus the captured element when it existed
and was not the editor itself. -/
def restoreFlushed (viewDom stateId : Nat) (st : EdState)
    (r2 : EdState) : EdState :=
  let st3 := if st.viewState ≠ stateId
    then { r2 with viewState := st.viewState } else r2
  if st.active ≠ some viewDom ∧ st.active ≠ none
  then { st3 with active := st.active } else st3

/-- The probe body of `endOfTextblockHorizontal`: capture the current
range, focus location and bidi level; move the caret one character with
`Selection.modify` (host outcome `modifyFn`); resolve the enclosing
block's host node (`domAfterPos`, host outcome `domAfterPosR`, which
may raise); compute whether the caret left the block or did not move;
then — only on this non-raising path — restore the captured range and
bidi level. -/
def horizProbeBody (modifyFn : NativeSel → NativeSel)
    (domAfterPosR : Except HostErr Nat) (containsFn : Nat → Nat → Bool)
    (st : EdState) : Except HostErr Bool × EdState :=
  let oldRange := st.sel.ranges.headD ⟨0, 0, 0, 0⟩
  let oldNode := st.sel.focusNode
  let oldOff := st.sel.focusOff
  let oldBidi := st.sel.bidiLevel
  let st1 := { st with sel := modifyFn st.sel }
  match domAfterPosR with
  | .error e => (.error e, st1)
  | .ok parentDOM =>
      let result := !containsFn parentDOM st1.sel.focusNode ||
        (oldNode == st1.sel.focusNode && oldOff == st1.sel.focusOff)
      (.ok result, { st1 with sel := addRangeRestore oldRange oldBidi st1.sel })

/-- `endOfTextblockHorizontal(view, state, dir)`: false outside a
textblock; resolved from the parent offset bounds when the text content
cannot contain right-to-left script or `Selection.modify` is missing;
otherwise a reversible `withFlushedState` caret-movement probe. -/
def endOfTextblockHorizontal (viewDom stateId : Nat)
    (parentIsTextblock : Bool) (parentOffset parentContentSize : Int)
    (textHasRTL selModifySupported dirLeftOrBackward : Bool)
    (modifyFn : NativeSel → NativeSel)
    (domAfterPosR : Except HostErr Nat) (containsFn : Nat → Nat → Bool)
    (st : EdState) : Except HostErr Bool × EdState :=
  if !parentIsTextblock then (.ok false, st)
  else if !textHasRTL || !selModifySupported then
    (.ok (if dirLeftOrBackward then parentOffset == 0
      else parentOffset == parentContentSize), st)
  else
    withFlushedState viewDom stateId
      (horizProbeBody modifyFn domAfterPosR containsFn) st

/-! ### The reconciliation engine

`iterDeco`, `ViewTreeUpdater` and the `update`/`updateChildren`
machinery of `viewdesc.ts`.  Custom node views are external delegates
and are not configured (default rendering); the composition placeholder
synthesis (`protectLocalComposition`) reads live host text and
selection state and is modelled by the composition lock it installs
(`ViewTreeUpdater.lock`), whose host-side containment tests are
supplied by a `HostView` record.  Host node allocation is modelled by
fresh identities drawn from a generator threaded through the updater;
outer-decoration wrapper reconciliation keeps the stored host identity
(`patchOuterDeco`'s wrapper identity is not consulted by the verified
claims). -/

namespace PNode

def childCount (n : PNode) : Nat := n.content.length

def childAt (n : PNode) (i : Nat) : PNode :=
  (n.content.get? i).getD (.text [] [])

/-- `node.cut(from)` on a text node: the trailing piece. -/
def cutFrom (n : PNode) (a : Nat) : PNode :=
  match n with
  | .text m s => .text m (s.drop a)
  | other => other

/-- `node.cut(0, to)` on a text node: the leading piece. -/
def cutTo (n : PNode) (b : Nat) : PNode :=
  match n with
  | .text m s => .text m (s.take b)
  | other => other

end PNode

/-- One callback of `iterDeco`: a widget (with the parent child index
and whether a split text remainder is pending) or a child node with its
outer (local) decorations, inner decoration subset and parent child
index (-1 for split text pieces). -/
inductive IterEvent where
  | widget (w : Deco) (parentIndex : Nat) (insideNode : Bool)
  | node (child : PNode) (outer : List Deco) (inner : DecoSet)
      (index : Int)
deriving DecidableEq

/-- Stable insertion of a widget by `side` (JS `Array.sort` with
`compareSide` is stable). -/
def insertBySide (d : Deco) : List Deco → List Deco
  | [] => [d]
  | x :: xs =>
      if x.type.side ≤ d.type.side then x :: insertBySide d xs
      else d :: x :: xs

/-- Stable sort by widget `side`. -/
def sortBySide (l : List Deco) : List Deco :=
  l.foldl (fun acc d => insertBySide d acc) []

/-- Consume the run of local decorations ending exactly at `offset`
(`locals[decoIndex].to == offset`): the widgets to place here. -/
def widgetsAt (offset : Int) : List Deco → List Deco × List Deco
  | [] => ([], [])
  | d :: rest =>
      if d.t == offset then
        let r := widgetsAt offset rest
        (d :: r.1, r.2)
      else ([], d :: rest)

/-- Consume the local decorations whose range covers `offset`
(`from <= offset && to > offset`): they become active inline
decorations. -/
def consumeActive (offset : Int) : List Deco → List Deco × List Deco
  | [] => ([], [])
  | d :: rest =>
      if d.f ≤ offset ∧ offset < d.t then
        let r := consumeActive offset rest
        (d :: r.1, r.2)
      else ([], d :: rest)

/-- The text-split point: the next local decoration boundary starting
strictly inside the run, then any active decoration end before it. -/
def cutAtCalc (endP : Int) (locals active : List Deco) : Int :=
  let c1 := match locals.head? with
    | some d => if d.f < endP then d.f else endP
    | none => endP
  active.foldl (fun c a => if a.t < c then a.t else c) c1

/-- The cheap variant of `iterDeco` for a node without local
decorations: one `onNode` per child with its `forChild` subset. -/
def simpleEvents (deco : DecoSet) : List PNode → Nat → Int → List IterEvent
  | [], _, _ => []
  | c :: rem, i, offset =>
      .node c [] (deco.forChild offset) i ::
        simpleEvents deco rem (i + 1) (offset + (c.nodeSize : Int))

/-- The main loop of `iterDeco`: at each offset, emit the widgets
ending here (sorted by side when several coincide), pick the pending
split remainder or the next child, refresh the active inline
decorations, split a text run at the next decoration boundary falling
strictly inside it, and emit the node callback.  The loop consumes one
unit of fuel per iteration and reports exhaustion in the `Bool` (the
source's loop terminates on well-formed, sorted decoration sets). -/
def iterLoop (deco : DecoSet) :
    Nat → List PNode → Nat → Int → List Deco → List Deco →
      Option PNode → List IterEvent × Bool
  | 0, _, _, _, _, _, _ => ([], false)
  | fl + 1, remaining, parentIndex, offset, locals, active, restNode =>
      let wr := widgetsAt offset locals
      let widgetEvents := (if wr.1.length ≥ 2 then sortBySide wr.1
          else wr.1).map
        (fun w => IterEvent.widget w parentIndex restNode.isSome)
      match restNode with
      | some rn =>
          let active1 := (active.filter (fun a => decide (offset < a.t)))
          let ca := consumeActive offset wr.2
          let active2 := active1 ++ ca.1
          let endP := offset + (rn.nodeSize : Int)
          if rn.isText && cutAtCalc endP ca.2 active2 < endP then
            let cutAt := cutAtCalc endP ca.2 active2
            let piece := rn.cutTo (cutAt - offset).toNat
            let r := iterLoop deco fl remaining parentIndex cutAt ca.2
              active2 (some (rn.cutFrom (cutAt - offset).toNat))
            (widgetEvents ++
              (IterEvent.node piece active2 (deco.forChild offset) (-1)
                :: r.1), r.2)
          else
            let r := iterLoop deco fl remaining parentIndex endP ca.2
              active2 none
            (widgetEvents ++
              (IterEvent.node rn active2 (deco.forChild offset) (-1)
                :: r.1), r.2)
      | none =>
          match remaining with
          | [] => (widgetEvents, true)
          | c :: rem =>
              let active1 :=
                (active.filter (fun a => decide (offset < a.t)))
              let ca := consumeActive offset wr.2
              let active2 := active1 ++ ca.1
              let endP := offset + (c.nodeSize : Int)
              if c.isText && cutAtCalc endP ca.2 active2 < endP then
                let cutAt := cutAtCalc endP ca.2 active2
                let piece := c.cutTo (cutAt - offset).toNat
                let r := iterLoop deco fl rem (parentIndex + 1) cutAt
                  ca.2 active2 (some (c.cutFrom (cutAt - offset).toNat))
                (widgetEvents ++
                  (IterEvent.node piece active2 (deco.forChild offset)
                      (-1) :: r.1), r.2)
              else
                let r := iterLoop deco fl rem (parentIndex + 1) endP
                  ca.2 active2 none
                (widgetEvents ++
                  (IterEvent.node c active2 (deco.forChild offset)
                      (parentIndex : Int) :: r.1), r.2)
  termination_by structural n _ _ _ _ _ _ => n

/-- `iterDeco(parent, deco, onWidget, onNode)` as an event list, with
the fuel-exhaustion flag. -/
def iterEvents (fuel : Nat) (parent : PNode) (deco : DecoSet) :
    List IterEvent × Bool :=
  if deco.locals.isEmpty then (simpleEvents deco parent.content 0 0, true)
  else iterLoop deco fuel parent.content 0 0 deco.locals [] none

/-- Host-tree observations consumed by the reconciliation engine: the
active composition (`view.composing` and the focused text node found by
`localCompositionNode`), the element test and lock containment test of
`updateNextNode`, and `TextViewDesc.inParent` (whether a text
descriptor's backing node still sits under its parent's content host
node), keyed by descriptor identity. -/
structure HostView where
  composing : Bool
  compositionLock : Option Nat
  isElement : Nat → Bool
  containsLockParent : Nat → Bool
  inParent : Nat → Bool

/-- The state of a `ViewTreeUpdater`: the zipper of open mark levels
(each frame holding the suspended parent shell and the siblings around
the entered mark), the currently edited level (shell and children), the
cursor, the changed flag, the composition lock, the pre-match data, and
the fresh-identity generator. -/
structure Updater where
  stack : List (Desc × List Desc × List Desc)
  topShell : Desc
  topChildren : List Desc
  index : Nat
  changed : Bool
  lock : Option Nat
  preMatched : List Desc
  preMatchOffset : Nat
  gen : Nat
  /-- Whether the run has stayed within its fuel budget; the engine
  functions below consume fuel and flag exhaustion here instead of
  diverging (the source recurses on the finite document tree). -/
  ok : Bool

/-- `preMatch(frag, descs)`: scan the descriptors from the end while
they mirror (by node identity) the fragment's trailing children,
skipping descriptors without a document node; returns the matched
descriptors in order and the fragment index where the matched suffix
begins.  The input list is the descriptor array reversed. -/
def preMatchRev (content : List PNode) :
    List Desc → Nat → List Desc × Nat
  | [], endI => ([], endI)
  | d :: rest, endI =>
      if endI = 0 then ([], endI)
      else
        match d.pnode? with
        | none => preMatchRev content rest endI
        | some n =>
            if content.get? (endI - 1) = some n then
              let r := preMatchRev content rest (endI - 1)
              (r.1 ++ [d], r.2)
            else ([], endI)

/-- The document node of a node-backed descriptor (dummy for the
variants that have none). -/
def Desc.pnodeD (d : Desc) : PNode := (d.pnode?).getD (.text [] [])

/-- The stored inner decoration set of a node-backed descriptor. -/
def Desc.innerDecoD : Desc → DecoSet
  | .node _ _ _ i _ _ => i
  | _ => .empty

/-- The stored widget decoration of a widget descriptor. -/
def Desc.widgetDeco : Desc → Option Deco
  | .widget _ w => some w
  | _ => none

/-- `new ViewTreeUpdater(top, lockedNode)`. -/
def initUpdater (d : Desc) (lock : Option Nat) (gen : Nat) : Updater :=
  let pm := preMatchRev d.pnodeD.content d.children.reverse
    d.pnodeD.content.length
  { stack := []
    topShell := d
    topChildren := d.children
    index := 0
    changed := false
    lock := lock
    preMatched := pm.1
    preMatchOffset := pm.2
    gen := gen
    ok := true }

/-- `destroyBetween(start, end)`: destroy and remove the children in
`[start, end)` (a no-op splice when `end <= start`, though the changed
flag is still raised when `start != end`). -/
def destroyBetween (start endI : Nat) (u : Updater) : Updater :=
  if start = endI then u
  else
    { u with
      topChildren := if endI ≤ start then u.topChildren
        else u.topChildren.take start ++ u.topChildren.drop endI
      changed := true }

/-- `destroyRest()`. -/
def destroyRest (u : Updater) : Updater :=
  destroyBetween u.index u.topChildren.length u

/-- The mark descriptor of open level `k` (0-based, outermost first):
the current top for the innermost level, otherwise the parent shell
saved when entering the next level (`this.stack[(keep + 1) << 1]`). -/
def levelShell (u : Updater) (k : Nat) : Option Desc :=
  if k + 1 = u.stack.length then some u.topShell
  else (u.stack.get? (u.stack.length - 2 - k)).map (fun f => f.1)

/-- One test of the keep loop of `syncToMarks`: the level's descriptor
matches the mark and the mark type is spanning
(`spec.spanning !== false`). -/
def syncKeepCond (u : Updater) (marks : List MarkT) (k : Nat) : Bool :=
  match levelShell u k, marks.get? k with
  | some s, some m => s.matchesMark m && m.type.spanning
  | _, _ => false

def syncKeepGo (u : Updater) (marks : List MarkT) : Nat → Nat → Nat
  | 0, k => k
  | r + 1, k =>
      if syncKeepCond u marks k then syncKeepGo u marks r (k + 1) else k

/-- The keep loop of `syncToMarks`: the length of the kept prefix of
open mark levels. -/
def syncKeep (u : Updater) (marks : List MarkT) : Nat :=
  syncKeepGo u marks (min u.stack.length marks.length) 0

/-- One pop of `syncToMarks`: destroy the unvisited children of the
level being closed, reset its dirty level, and reassemble it into its
parent, placing the cursor after it. -/
def popLevel (u : Updater) : Updater :=
  match u.stack with
  | [] => u
  | (pShell, before, after) :: rest =>
      let u1 := destroyRest u
      let closedMark :=
        (u1.topShell.withDirty NOT_DIRTY).withChildren u1.topChildren
      { u1 with
        stack := rest
        topShell := pShell
        topChildren := before ++ closedMark :: after
        index := before.length + 1 }

def popN : Nat → Updater → Updater
  | 0, u => u
  | n + 1, u => popN n (popLevel u)

/-- The reuse lookahead of the push loop: the first of the next (up to)
3 children matching the mark. -/
def findMarkIn (m : MarkT) (cs : List Desc) (start stop : Nat) :
    Option Nat :=
  (((cs.drop start).take (stop - start)).findIdx?
    (fun c => c.matchesMark m)).map (fun j => start + j)

/-- One push of `syncToMarks`: reuse a matching mark descriptor found
within the lookahead window (destroying anything skipped over) or
create a fresh one (`MarkViewDesc.create`), then enter it. -/
def pushLevel (m : MarkT) (u : Updater) : Updater :=
  match findMarkIn m u.topChildren u.index
      (min (u.index + 3) u.topChildren.length) with
  | some fidx =>
      let u1 := if u.index < fidx then
          destroyBetween u.index fidx { u with changed := true }
        else u
      match u1.topChildren.get? u1.index with
      | some mk =>
          { u1 with
            stack := (u1.topShell, u1.topChildren.take u1.index,
              u1.topChildren.drop (u1.index + 1)) :: u1.stack
            topShell := mk
            topChildren := mk.children
            index := 0 }
      | none => u1
  | none =>
      let markDesc := Desc.mark
        ⟨u.gen, NOT_DIRTY, u.gen + 1, u.gen + 1, u.gen + 2, false, false⟩
        m []
      { u with
        stack := (u.topShell, u.topChildren.take u.index,
          u.topChildren.drop u.index) :: u.stack
        topShell := markDesc
        topChildren := []
        index := 0
        changed := true
        gen := u.gen + 3 }

/-- `syncToMarks(marks, inline, view)`: keep the matching prefix of the
open mark levels, pop the rest (destroying their unvisited children),
push (or reuse) wrappers for the remaining target marks. -/
def syncToMarks (marks : List MarkT) (u : Updater) : Updater :=
  let keep := syncKeep u marks
  let u1 := popN (u.stack.length - keep) u
  (marks.drop u1.stack.length).foldl (fun v m => pushLevel m v) u1

/-- `getPreMatch(index)`. -/
def getPreMatch (u : Updater) (i : Nat) : Option Desc :=
  if u.preMatchOffset ≤ i then u.preMatched.get? (i - u.preMatchOffset)
  else none

/-- Position of the descriptor with the given identity
(`Array.indexOf` under object identity). -/
def idxOfId (cs : List Desc) (i : Nat) : Option Nat :=
  cs.findIdx? (fun d => d.descId == i)

/-- `findNodeMatch(node, outerDeco, innerDeco, index)`: prefer the
pre-matched descriptor for this fragment index when it matches the
node, else scan a 5-wide window from the cursor for a matching
descriptor that is not pre-matched; on success drop the skipped
descriptors and advance past the match. -/
def findNodeMatch (child : PNode) (outer : List Deco) (inner : DecoSet)
    (index : Int) (u : Updater) : Option Updater :=
  let scan : Option Nat :=
    (((u.topChildren.drop u.index).take
        (min u.topChildren.length (u.index + 5) - u.index)).findIdx?
      (fun c => c.matchesNode child outer inner &&
        (idxOfId u.preMatched c.descId).isNone)).map
      (fun j => u.index + j)
  let found : Option Nat :=
    match (if index < 0 then none else getPreMatch u index.toNat) with
    | some pm =>
        if pm.matchesNode child outer inner then
          idxOfId u.topChildren pm.descId
        else scan
    | none => scan
  match found with
  | none => none
  | some f =>
      let u1 := destroyBetween u.index f u
      some { u1 with index := u1.index + 1 }

/-- The reuse test of `placeWidget`: the next descriptor is a
matching, undirtied widget of the same type and either the very same
decoration object or one whose prebuilt host node is detached
(`widget == next.widget || !next.widget.type.toDOM.parentNode`). -/
def widgetAtCursor (w : Deco) (u : Updater) : Bool :=
  match u.topChildren.get? u.index with
  | some next =>
      next.matchesWidget w &&
        (match next.widgetDeco with
         | some stored => w == stored || stored.type.toDomDetached
         | none => false)
  | none => false

/-- `placeWidget(widget, view, pos)`: reuse the next descriptor when
the reuse test passes, else insert a fresh widget descriptor at the
cursor (a splice at or past the end appends). -/
def placeWidget (w : Deco) (u : Updater) : Updater :=
  if widgetAtCursor w u then { u with index := u.index + 1 }
  else
    { u with
      topChildren := u.topChildren.take u.index ++
        Desc.widget ⟨u.gen, NOT_DIRTY, u.gen + 1, u.gen + 1, 0,
          false, false⟩ w :: u.topChildren.drop u.index
      index := u.index + 1
      changed := true
      gen := u.gen + 2 }

mutual
/-- The mark descent of `addTextblockHacks`' last-child lookup
(`while (lastChild instanceof MarkViewDesc) lastChild =
lastChild.children[lastChild.children.length - 1]`). -/
def lastDescend : Desc → Option Desc
  | .mark _ _ cs => lastDescendList cs
  | d => some d

def lastDescendList : List Desc → Option Desc
  | [] => none
  | [c] => lastDescend c
  | _ :: rest => lastDescendList rest
end

/-- The `needsHack` test of `addTextblockHacks`: the block is empty,
or its last rendered child (through mark wrappers) is not a text
descriptor, or its text ends in a newline. -/
def hackNeeded (u : Updater) : Bool :=
  let lastChild := if u.index = 0 then none
    else match u.topChildren.get? (u.index - 1) with
      | some d => lastDescend d
      | none => none
  match lastChild with
  | none => true
  | some d =>
      !(d.isNodeBacked && d.pnodeD.isText) ||
        (d.pnodeD.textStr.getLast? == some (Char.ofNat 10))

/-- `addTextblockHacks()`: when the block does not end in a non-empty,
non-newline-terminated text run, reuse the next descriptor if it is a
clean hack, else insert a fresh trailing-break hack descriptor. -/
def addTextblockHacks (u : Updater) : Updater :=
  if hackNeeded u then
    match u.topChildren.get? u.index with
    | some nx =>
        if nx.matchesHack then { u with index := u.index + 1 }
        else
          { u with
            topChildren := u.topChildren.take u.index ++
              Desc.hack ⟨u.gen, NOT_DIRTY, u.gen + 1, u.gen + 1, 0,
                false, false⟩ :: u.topChildren.drop u.index
            index := u.index + 1
            changed := true
            gen := u.gen + 2 }
    | none =>
        { u with
          topChildren := u.topChildren ++
            [Desc.hack ⟨u.gen, NOT_DIRTY, u.gen + 1, u.gen + 1, 0,
              false, false⟩]
          index := u.index + 1
          changed := true
          gen := u.gen + 2 }
  else u

/-- The stored outer decorations of a node-backed descriptor. -/
def Desc.outerDecoD : Desc → List Deco
  | .node _ _ o _ _ _ => o
  | _ => []

/-- The current value of a text descriptor's host text node
(`this.nodeDOM.nodeValue`). -/
def Desc.domTextValueD : Desc → List Char
  | .node _ _ _ _ _ t => t
  | _ => []

/-- The result of `updateChildren`: the descriptor with its new child
array, the threaded identity generator, the updater's changed flag,
whether the DOM sync pass (`renderDescs`) ran
(`updater.changed || this.dirty == CONTENT_DIRTY`), and whether the
run stayed within its fuel budget. -/
structure UCResult where
  desc : Desc
  gen : Nat
  changed : Bool
  rendered : Bool
  ok : Bool
deriving DecidableEq

/-- The marks the widget callback of `updateChildren` syncs to before
placing a widget: the widget's `spec.marks` when declared, else (for a
forward-side widget outside a split text run) the marks of the child
at the parent index; `none` when no sync happens. -/
def widgetSyncMarks (pn : PNode) (w : Deco) (i : Nat)
    (insideNode : Bool) : Option (List MarkT) :=
  match w.specMarks with
  | some ms => some ms
  | none =>
      if w.type.side ≥ 0 && !insideNode then
        some (if i == pn.childCount then [] else (pn.childAt i).marks)
      else none

/-! Each engine function consumes one unit of fuel per call and flags
exhaustion (`ok := false` / the `Bool` component) instead of
diverging; the source performs the same recursion on the finite
document tree, so a run that never exhausts its fuel computes exactly
the source's result. -/

mutual

/-- `NodeViewDesc.create` with no custom node view configured: a text
descriptor for text nodes, a childless descriptor for other leaf
nodes, and for content-bearing nodes a descriptor whose constructor
runs `updateChildren` to build the children. -/
def createDesc (hv : HostView) :
    Nat → PNode → List Deco → DecoSet → Nat → Desc × Nat × Bool
  | 0, _, _, _, g => (.hack ⟨g, NOT_DIRTY, 0, 0, 0, false, false⟩, g,
      false)
  | f + 1, n, outer, inner, g =>
      if n.isText then
        (.node ⟨g, NOT_DIRTY, g + 1, g + 1, 0, false, false⟩ n outer
          inner [] n.textStr, g + 2, true)
      else if n.isLeaf then
        (.node ⟨g, NOT_DIRTY, g + 1, g + 1, 0, false, false⟩ n outer
          inner [] [], g + 2, true)
      else
        let r := updateChildren hv f
          (.node ⟨g, NOT_DIRTY, g + 1, g + 1, g + 2, false, false⟩ n
            outer inner [] []) (g + 3)
        (r.desc, r.gen, r.ok)
  termination_by structural n _ _ _ _ => n

/-- `ViewDesc.update(node, outerDeco, innerDeco, view)` on a
node-backed descriptor: the `TextViewDesc.update` override for text
descriptors, otherwise `NodeViewDesc.update` / `updateInner`.  `none`
models `return false`.  Outer-decoration patching keeps the stored
host identity (`updateOuterDeco` reuses `nodeDOM`); `TextViewDesc`
does not store the incoming inner decorations. -/
def descUpdate (hv : HostView) :
    Nat → Desc → PNode → List Deco → DecoSet → Nat →
      Option (Desc × Nat) × Bool
  | 0, _, _, _, _, _ => (none, false)
  | f + 1, d, n, outer, inner, g =>
      match d with
      | .node c pn louter linner lchildren ltext =>
          if pn.isText then
            if c.dirty == NODE_DIRTY ||
                (c.dirty != NOT_DIRTY && !hv.inParent c.id) ||
                !n.sameMarkup pn then (none, true)
            else
              let newText := if (c.dirty != NOT_DIRTY ||
                    n.textStr != pn.textStr) && n.textStr != ltext then
                  n.textStr
                else ltext
              (some (.node { c with dirty := NOT_DIRTY } n outer linner
                lchildren newText, g), true)
          else
            if c.dirty == NODE_DIRTY || !n.sameMarkup pn then
              (none, true)
            else if n.isLeaf then
              (some (.node { c with dirty := NOT_DIRTY } n outer inner
                lchildren ltext, g), true)
            else
              let r := updateChildren hv f
                (.node c n outer inner lchildren ltext) g
              (some (r.desc.withDirty NOT_DIRTY, r.gen), r.ok)
      | _ => (none, true)
  termination_by structural n _ _ _ _ _ => n

/-- `NodeViewDesc.updateChildren(view, pos)`: build the decoration
event stream, run the tree updater over it, close the open mark
levels, add the textblock hacks, drop the leftover children, and run
the DOM sync pass when anything changed or the content was marked
dirty.  The composition placeholder branch is modelled by the lock it
installs (no `protectLocalComposition` rewriting), as consumed by
`updateNextNode`. -/
def updateChildren (hv : HostView) :
    Nat → Desc → Nat → UCResult
  | 0, d, g => ⟨d, g, false, false, false⟩
  | f + 1, d, g =>
      let n := d.pnodeD
      let inline := n.inlineContent
      let lock := if hv.composing && inline then hv.compositionLock
        else none
      let u0 := initUpdater d lock g
      let ev := iterEvents f n d.innerDecoD
      let u1 := runEvents hv f n inline ev.1
        { u0 with ok := u0.ok && ev.2 }
      let u2 := syncToMarks [] u1
      let u3 := if n.isTextblock then addTextblockHacks u2 else u2
      let u4 := destroyRest u3
      { desc := d.withChildren u4.topChildren
        gen := u4.gen
        changed := u4.changed
        rendered := u4.changed || d.dirty == CONTENT_DIRTY
        ok := u4.ok }
  termination_by structural n _ _ => n

/-- The event loop of `updateChildren` (the two `iterDeco` callbacks
applied in sequence). -/
def runEvents (hv : HostView) :
    Nat → PNode → Bool → List IterEvent → Updater → Updater
  | 0, _, _, _, u => { u with ok := false }
  | _ + 1, _, _, [], u => u
  | f + 1, parentNode, inline, ev :: rest, u =>
      runEvents hv f parentNode inline rest
        (stepEvent hv f parentNode inline ev u)
  termination_by structural n _ _ _ _ => n

/-- One `iterDeco` callback: the widget callback syncs to the widget's
`spec.marks` (or, for forward-side widgets outside a split text run,
to the marks of the child at the parent index) and places the widget;
the node callback syncs to the child's marks, then tries
`findNodeMatch`, `updateNextNode`, `addNode` in that order. -/
def stepEvent (hv : HostView) :
    Nat → PNode → Bool → IterEvent → Updater → Updater
  | 0, _, _, _, u => { u with ok := false }
  | f + 1, parentNode, _, .widget w i insideNode, u =>
      let u1 := match widgetSyncMarks parentNode w i insideNode with
        | some ms => syncToMarks ms u
        | none => u
      placeWidget w u1
  | f + 1, _, _, .node child outer inner i, u =>
      let u1 := syncToMarks child.marks u
      match findNodeMatch child outer inner i u1 with
      | some u2 => u2
      | none =>
          match updateNextNode hv f child outer inner i u1 with
          | some u2 => u2
          | none => addNode hv f child outer inner u1
  termination_by structural n _ _ _ _ => n

/-- `ViewTreeUpdater.updateNextNode`: scan from the cursor to the
first node-backed descriptor (skipping the others); refuse when it is
pre-matched to a different fragment index, when the composition lock
forbids touching it (`locked`), or when its `update` returns false;
otherwise drop the skipped descriptors, install the updated
descriptor and advance.  `none` models `return false`. -/
def updateNextNode (hv : HostView) :
    Nat → PNode → List Deco → DecoSet → Int → Updater → Option Updater
  | 0, _, _, _, _, u => some { u with ok := false }
  | f + 1, child, outer, inner, index, u =>
      unnScan hv f child outer inner index u u.index
        (u.topChildren.drop u.index)
  termination_by structural n _ _ _ _ _ => n

/-- The scan loop of `updateNextNode` (`i` is the absolute child
position of the head of `cs` in the level's child array). -/
def unnScan (hv : HostView) :
    Nat → PNode → List Deco → DecoSet → Int → Updater → Nat →
      List Desc → Option Updater
  | 0, _, _, _, _, u, _, _ => some { u with ok := false }
  | _ + 1, _, _, _, _, _, _, [] => none
  | f + 1, child, outer, inner, index, u, i, next :: rest =>
      if next.isNodeBacked then
        match idxOfId u.preMatched next.descId with
        | some p =>
            if (p + u.preMatchOffset : Int) != index then none
            else unnHit hv f child outer inner u i next
        | none => unnHit hv f child outer inner u i next
      else unnScan hv f child outer inner index u (i + 1) rest
  termination_by structural n _ _ _ _ _ _ _ => n

/-- The body run on the first node-backed descriptor found by
`updateNextNode`: the `locked` test and the `update` attempt. -/
def unnHit (hv : HostView) :
    Nat → PNode → List Deco → DecoSet → Updater → Nat → Desc →
      Option Updater
  | 0, _, _, _, u, _, _ => some { u with ok := false }
  | f + 1, child, outer, inner, u, i, next =>
      let nextDOM := next.domId
      let locked := match u.lock with
        | none => false
        | some l =>
            (nextDOM == l ||
              (hv.isElement nextDOM && hv.containsLockParent nextDOM))
            &&
            !(child.isText && next.pnodeD.isText &&
              next.domTextValueD == child.textStr &&
              next.dirty != NODE_DIRTY &&
              Desc.sameOuterDeco outer next.outerDecoD)
      if locked then none
      else match descUpdate hv f next child outer inner u.gen with
        | (none, dok) =>
            if dok then none else some { u with ok := false }
        | (some (next', g'), dok) =>
            let u1 := destroyBetween u.index i
              { u with gen := g', ok := u.ok && dok }
            some { u1 with
              topChildren := u1.topChildren.set u1.index next'
              index := u1.index + 1 }
  termination_by structural n _ _ _ _ _ _ => n

/-- `ViewTreeUpdater.addNode`: insert a freshly created descriptor at
the cursor. -/
def addNode (hv : HostView) :
    Nat → PNode → List Deco → DecoSet → Updater → Updater
  | 0, _, _, _, u => { u with ok := false }
  | f + 1, child, outer, inner, u =>
      let r := createDesc hv f child outer inner u.gen
      { u with
        topChildren := u.topChildren.take u.index ++
          r.1 :: u.topChildren.drop u.index
        index := u.index + 1
        changed := true
        gen := r.2.1
        ok := u.ok && r.2.2 }
  termination_by structural n _ _ _ _ => n

end


/-! ### Values used by the reconciliation theorems -/

/-- The exception clause of `updateNextNode`'s `locked` test: a text
node arriving at a text descriptor whose host text node already holds
the incoming text, not `NODE_DIRTY`, under matching outer
decorations. -/
def lockException (child : PNode) (outer : List Deco) (next : Desc) :
    Bool :=
  child.isText && next.pnodeD.isText &&
    next.domTextValueD == child.textStr &&
    next.dirty != NODE_DIRTY && Desc.sameOuterDeco outer next.outerDecoD

def quietHost : HostView :=
  ⟨false, none, fun _ => false, fun _ => false, fun _ => true⟩

def dummyDesc : Desc := .hack ⟨0, 0, 0, 0, 0, false, false⟩

def Desc.markOf : Desc → Option MarkT
  | .mark _ m _ => some m
  | _ => none

def markA : MarkT := ⟨⟨1, true⟩, 0⟩
def markB : MarkT := ⟨⟨2, true⟩, 0⟩
def markC : MarkT := ⟨⟨3, true⟩, 0⟩

def paraABAC : PNode := .elem 1 0 [] false true true
  [.text [markA, markB] ['x'], .text [markA, markC] ['y']]

def abacDesc : Desc := (createDesc quietHost 40 paraABAC [] .empty 0).1

def c4next : Desc := .node ⟨1, NOT_DIRTY, 50, 50, 0, false, false⟩
  (.text [] ['a', 'b']) [] .empty [] ['a', 'b']

def c4upd : Updater := ⟨[], dummyDesc, [c4next], 0, false, some 50, [],
  0, 7, true⟩

def c6upd : Updater :=
  ⟨[(.mark ⟨21, 0, 0, 0, 0, false, false⟩ markA [], [], []),
    (.hack ⟨22, 0, 0, 0, 0, false, false⟩, [], [])],
   .mark ⟨23, 0, 0, 0, 0, false, false⟩ markC [], [], 0, false, none,
   [], 0, 0, true⟩


/-! ### Change-free reconciliation

The conditions under which a full `updateChildren` pass reuses every
descriptor: each mark sync pops only exhausted, clean levels and
re-enters wrappers found exactly at the cursor, each node event finds
its match at the cursor, each widget event reuses the descriptor at
the cursor, and the closing phase (final mark sync, textblock hacks,
`destroyRest`) consumes the tree exactly. -/

/-- The zipper portion of an updater (the open mark levels, current
shell, current children, cursor). -/
structure PopView where
  stack : List (Desc × List Desc × List Desc)
  shell : Desc
  cs : List Desc
  idx : Nat

def viewOf (u : Updater) : PopView :=
  ⟨u.stack, u.topShell, u.topChildren, u.index⟩

def setView (u : Updater) (v : PopView) : Updater :=
  { u with
    stack := v.stack
    topShell := v.shell
    topChildren := v.cs
    index := v.idx }

/-- The zipper after `n` change-free pops (each level reassembled into
its parent). -/
def popSim : Nat → PopView → PopView
  | 0, v => v
  | n + 1, v =>
      match v.stack with
      | [] => v
      | (pShell, before, after) :: rest =>
          popSim n ⟨rest, pShell,
            before ++ v.shell.withChildren v.cs :: after,
            before.length + 1⟩

/-- `n` pops are change-free: each popped level's cursor is at the end
of its children (nothing for `destroyRest` to destroy) and its wrapper
is already clean (the dirty reset writes nothing). -/
def popsOk : Nat → List (Desc × List Desc × List Desc) → Desc →
    List Desc → Nat → Bool
  | 0, _, _, _, _ => true
  | _ + 1, [], _, _, _ => false
  | n + 1, (pShell, before, after) :: rest, shell, cs, idx =>
      idx == cs.length && shell.dirty == NOT_DIRTY &&
        popsOk n rest pShell (before ++ shell.withChildren cs :: after)
          (before.length + 1)

/-- The push phase reuses: each remaining target mark finds a matching
wrapper exactly at the cursor, recursively. -/
def spineOk : List MarkT → List Desc → Nat → Bool
  | [], _, _ => true
  | m :: ms, cs, i =>
      match cs.get? i with
      | some w => w.matchesMark m && spineOk ms w.children 0
      | none => false

/-- A change-free `syncToMarks marks`: the levels beyond the kept
prefix pop without destroying, and the target marks beyond it re-enter
wrappers at the cursor. -/
def syncOk (ms : List MarkT) (u : Updater) : Bool :=
  popsOk (u.stack.length - syncKeep u ms) u.stack u.topShell
      u.topChildren u.index &&
    spineOk (ms.drop (syncKeep u ms))
      (popSim (u.stack.length - syncKeep u ms) (viewOf u)).cs
      (popSim (u.stack.length - syncKeep u ms) (viewOf u)).idx

/-- The scan route of `findNodeMatch` succeeds at the cursor: the
cursor descriptor matches the triple and is not pre-matched. -/
def scanAtCursor (child : PNode) (outer : List Deco) (inner : DecoSet)
    (u : Updater) : Bool :=
  match u.topChildren.get? u.index with
  | some cur =>
      cur.matchesNode child outer inner &&
        (idxOfId u.preMatched cur.descId).isNone
  | none => false

/-- `findNodeMatch` lands exactly on the cursor (through either the
pre-match route or the scan). -/
def fnmAtCursor (child : PNode) (outer : List Deco) (inner : DecoSet)
    (index : Int) (u : Updater) : Bool :=
  match (if index < 0 then none else getPreMatch u index.toNat) with
  | some pm =>
      if pm.matchesNode child outer inner then
        idxOfId u.topChildren pm.descId == some u.index
      else scanAtCursor child outer inner u
  | none => scanAtCursor child outer inner u

/-- One event of the stream reuses at the current state. -/
def stepOk (pn : PNode) (ev : IterEvent) (u : Updater) : Bool :=
  match ev with
  | .widget w i insideNode =>
      match widgetSyncMarks pn w i insideNode with
      | some ms => syncOk ms u && widgetAtCursor w (syncToMarks ms u)
      | none => widgetAtCursor w u
  | .node child outer inner i =>
      syncOk child.marks u &&
        fnmAtCursor child outer inner i (syncToMarks child.marks u)

/-- The closing phase is change-free: the final mark sync pops
everything cleanly, the textblock hack (when needed) is reused, and
the cursor ends exactly at the last child. -/
def endOk (pn : PNode) (u : Updater) : Bool :=
  syncOk [] u &&
    (if pn.isTextblock then
      if hackNeeded (syncToMarks [] u) then
        (match (syncToMarks [] u).topChildren.get?
            (syncToMarks [] u).index with
         | some nx => nx.matchesHack
         | none => false) &&
          (syncToMarks [] u).index + 1 ==
            (syncToMarks [] u).topChildren.length
      else (syncToMarks [] u).index ==
        (syncToMarks [] u).topChildren.length
    else (syncToMarks [] u).index ==
      (syncToMarks [] u).topChildren.length)

/-- Every event of the stream reuses, and the closing phase is
change-free (fuel-indexed alongside the engine). -/
def mirrorOk (hv : HostView) : Nat → PNode → List IterEvent →
    Updater → Bool
  | 0, _, _, _ => false
  | _ + 1, pn, [], u => endOk pn u
  | f + 1, pn, ev :: rest, u =>
      stepOk pn ev u &&
        mirrorOk hv f pn rest
          (stepEvent hv f pn pn.inlineContent ev u)

/-- The flattening of the zipper back to the root child array (pure
reassembly, destroying nothing and writing no dirty state). -/
def reasm : List (Desc × List Desc × List Desc) → Desc → List Desc →
    List Desc
  | [], _, cs => cs
  | (pShell, before, after) :: rest, shell, cs =>
      reasm rest pShell (before ++ shell.withChildren cs :: after)

def reasmU (u : Updater) : List Desc :=
  reasm u.stack u.topShell u.topChildren

/-- What a change-free step preserves: every updater field except the
zipper position, and the flattened child array. -/
def Quiet (u v : Updater) : Prop :=
  v.changed = u.changed ∧ v.gen = u.gen ∧ v.lock = u.lock ∧
  v.preMatched = u.preMatched ∧ v.preMatchOffset = u.preMatchOffset ∧
  v.ok = u.ok ∧ reasmU v = reasmU u

/-- The stale stored decorations of the idempotence counterexample. -/
def c2staleInner : DecoSet := .mk [⟨0, 1, ⟨7, 0, false⟩, none⟩] []

/-- A reused text descriptor: clean, text `"x"`, but with a stored
inner decoration set differing from the incoming one. -/
def c2t0 : Desc := .node ⟨31, NOT_DIRTY, 61, 61, 0, false, false⟩
  (.text [markA] ['x']) [] c2staleInner [] ['x']

def c2wrap : Desc := .mark ⟨32, NOT_DIRTY, 62, 62, 0, false, false⟩
  markA [c2t0]

/-- A paragraph with two structurally equal marked text children. -/
def c2para : PNode := .elem 1 0 [] false true true
  [.text [markA] ['x'], .text [markA] ['x']]

def c2desc : Desc := .node ⟨33, NOT_DIRTY, 63, 63, 64, false, false⟩
  c2para [] .empty [c2wrap] []

def c2run1 : Option (Desc × Nat) × Bool :=
  descUpdate quietHost 30 c2desc c2para [] .empty 100

def c2d1 : Desc := ((c2run1.1).getD (dummyDesc, 0)).1

end ViewDescModel



namespace ViewDescModel

/-! ## Theorems -/

/-- C1 (amended): the matching predicates of the widget, node and hack
descriptor variants return false whenever the descriptor's dirty level
is not clean; the mark variant's `matchesMark` only guarantees false at
`NODE_DIRTY` (it may match at the two intermediate dirty levels). -/
theorem c1_matchers_require_clean (d : Desc) (w : Deco) (m : MarkT)
    (n : PNode) (odeco : List Deco) (ideco : DecoSet)
    (h : d.dirty ≠ NOT_DIRTY) :
    d.matchesWidget w = false ∧ d.matchesNode n odeco ideco = false ∧
      d.matchesHack = false ∧
      (d.dirty = NODE_DIRTY → d.matchesMark m = false) := by
  cases d with
  | widget c stored =>
      refine ⟨?_, rfl, rfl, fun _ => rfl⟩
      simp only [Desc.dirty, Desc.core] at h
      have hb : (c.dirty == NOT_DIRTY) = false := beq_eq_false_iff_ne.mpr h
      simp [Desc.matchesWidget, hb]
  | mark c stored cs =>
      refine ⟨rfl, rfl, rfl, fun h3 => ?_⟩
      simp only [Desc.dirty, Desc.core] at h3
      simp [Desc.matchesMark, h3]
  | node c pn o i cs t =>
      refine ⟨rfl, ?_, rfl, fun _ => rfl⟩
      simp only [Desc.dirty, Desc.core] at h
      have hb : (c.dirty == NOT_DIRTY) = false := beq_eq_false_iff_ne.mpr h
      simp [Desc.matchesNode, hb]
  | hack c =>
      refine ⟨rfl, rfl, ?_, fun _ => rfl⟩
      simp only [Desc.dirty, Desc.core] at h
      have hb : (c.dirty == NOT_DIRTY) = false := beq_eq_false_iff_ne.mpr h
      simp [Desc.matchesHack, hb]

/-- Witness for `c1_matchers_require_clean` at a concrete dirty widget
descriptor. -/
theorem c1_matchers_require_clean_witness :
    (Desc.widget ⟨7, CONTENT_DIRTY, 1, 1, 1, false, false⟩
        ⟨0, 0, ⟨5, 1, false⟩, none⟩).matchesWidget
        ⟨0, 0, ⟨5, 1, false⟩, none⟩ = false :=
  (c1_matchers_require_clean _ _ ⟨⟨0, true⟩, 0⟩ (.text [] []) [] .empty
    (by decide)).1

/-- C1 counterexample: a mark-wrapper descriptor whose dirty level is
`CHILD_DIRTY` (not clean) still matches an equal mark, refuting the
claim that every matching predicate returns false whenever the dirty
level is not clean. -/
theorem c1_counterexample :
    (Desc.mark ⟨3, CHILD_DIRTY, 1, 1, 1, false, false⟩ ⟨⟨4, true⟩, 0⟩
        []).matchesMark ⟨⟨4, true⟩, 0⟩ = true ∧
      (Desc.mark ⟨3, CHILD_DIRTY, 1, 1, 1, false, false⟩ ⟨⟨4, true⟩, 0⟩
        []).dirty ≠ NOT_DIRTY := by
  decide

/-- C5 (amended): a node-backed descriptor's size is its document
node's `nodeSize`: for non-leaf nodes this is the content size plus two
times the border of 1; a leaf has border 0, and its size is its text
length for text nodes and 1 (the token the leaf itself occupies, not 0)
for other leaves. -/
theorem c5_size_formula (c : DescCore) (n : PNode) (o : List Deco)
    (i : DecoSet) (cs : List Desc) (t : List Char) :
    ((Desc.node c n o i cs t).size = n.nodeSize) ∧
      (n.isLeaf = false →
        (Desc.node c n o i cs t).border = 1 ∧
        (Desc.node c n o i cs t).size =
          PNode.contentSize n.content + 2 * 1) ∧
      (n.isLeaf = true →
        (Desc.node c n o i cs t).border = 0 ∧
        (Desc.node c n o i cs t).size =
          (if n.isText then n.textStr.length else 1)) := by
  refine ⟨rfl, fun hl => ⟨?_, ?_⟩, fun hl => ⟨?_, ?_⟩⟩
  · simp [Desc.border, hl]
  · cases n with
    | text m s => simp [PNode.isLeaf] at hl
    | elem ty a m l ic b cnt =>
        simp only [PNode.isLeaf] at hl
        simp [Desc.size, PNode.nodeSize, PNode.content, hl]
  · simp [Desc.border, hl]
  · cases n with
    | text m s => simp [Desc.size, PNode.nodeSize, PNode.isText, PNode.textStr]
    | elem ty a m l ic b cnt =>
        simp only [PNode.isLeaf] at hl
        simp [Desc.size, PNode.nodeSize, PNode.isText, hl]

/-- Witness for `c5_size_formula` at a concrete one-child paragraph
descriptor. -/
theorem c5_size_formula_witness :
    (Desc.node ⟨0, 0, 0, 0, 0, false, false⟩
        (.elem 1 0 [] false true true [.text [] ['h', 'i']]) [] .empty []
        []).border = 1 ∧
      (Desc.node ⟨0, 0, 0, 0, 0, false, false⟩
        (.elem 1 0 [] false true true [.text [] ['h', 'i']]) [] .empty []
        []).size =
        PNode.contentSize
          (PNode.content (.elem 1 0 [] false true true
            [.text [] ['h', 'i']])) + 2 * 1 :=
  (c5_size_formula ⟨0, 0, 0, 0, 0, false, false⟩
    (.elem 1 0 [] false true true [.text [] ['h', 'i']]) [] .empty []
    []).2.1 rfl

/-- C5 counterexample: a non-text leaf descriptor (e.g. an image node)
has size 1, not the claimed content size of 0. -/
theorem c5_counterexample :
    (Desc.node ⟨0, 0, 0, 0, 0, false, false⟩ (.elem 2 0 [] true false false [])
        [] .empty [] []).size = 1 ∧
      (Desc.node ⟨0, 0, 0, 0, 0, false, false⟩ (.elem 2 0 [] true false false [])
        [] .empty [] []).size ≠
        PNode.contentSize (PNode.content (.elem 2 0 [] true false false []))
          + 2 * (Desc.node ⟨0, 0, 0, 0, 0, false, false⟩
            (.elem 2 0 [] true false false []) [] .empty [] []).border := by
  decide

end ViewDescModel

namespace ViewDescModel

theorem dirty_withDirty (d : Desc) (l : Nat) : (d.withDirty l).dirty = l := by
  cases d <;> rfl

theorem descAtPath_nil (d : Desc) : descAtPath d [] = some d := rfl

theorem descAtPath_cons_of_get (d : Desc) (i : Nat) (p : List Nat)
    (c : Desc) (h : d.children.get? i = some c) :
    descAtPath d (i :: p) = descAtPath c p := by
  rw [List.get?_eq_getElem?] at h
  simp [descAtPath, h]

mutual

theorem md_main : ∀ (d : Desc) (f t : Int), MainProp d f t
  | .node c n o i cs tv, f, t => by
      have LP := md_mainList f t 0 0 cs
      unfold ListProp at LP
      unfold MainProp
      simp only [markDirtyD, mdTrace]
      cases htr : (mdTraceChildren f t 0 0 cs).1 with
      | nil =>
          obtain ⟨hLA, hLP, hlf, hlt, hcb, hmin⟩ := LP.1 htr
          rw [hLA, hLP, hlf, hlt, hcb]
          refine ⟨by simp, by simp, by simp, ⟨_, rfl, ?_, ?_⟩, ?_⟩
          · intro h
            cases h
          · intro _
            refine ⟨(by intro h; cases h), fun _ => ?_⟩
            simp [Desc.dirty, Desc.core]
          · intro _
            refine ⟨.node c n o i cs tv, rfl, ?_⟩
            intro j c2 hget
            have := hmin j c2 (by simpa [Desc.children] using hget)
            simpa [offsetOfChild, Desc.children] using this
      | cons step tr2 =>
          obtain ⟨hidx0, child, hget, hsf, hst, hsoff, hsb, hss, hf1, hf2,
            ⟨lvl, hLA, hlvl⟩, hdisj⟩ := LP.2 step tr2 htr
          rw [Nat.sub_zero] at hget hsoff
          rw [hLA]
          have hgetc : (Desc.node c n o i cs tv).children.get? step.idx
              = some child := by simpa [Desc.children] using hget
          rcases hdisj with ⟨hcbT, htr2, hlfE, hltE, hL1, hLP0⟩ |
            ⟨hmdt, hL1, hLP2, hMP⟩
          · -- short-circuit terminal directly below this node
            subst htr2
            rw [Nat.sub_zero] at hL1
            rw [hcbT, hLP0]
            refine ⟨?_, ?_, ?_, ?_, ?_⟩
            · intro s hs
              simp only [List.mem_singleton] at hs
              subst hs
              rw [hsf, hst, hsb, hss]
              exact ⟨hf1, hf2⟩
            · intro k s hk
              cases k with
              | zero =>
                  simp only [List.get?] at hk
                  injection hk with hk
                  subst hk
                  refine ⟨.node c n o i cs tv, child, rfl, hgetc, hsb, hss,
                    ?_⟩
                  rw [hsoff]
                  simp [offsetOfChild, Desc.children]
              | succ k =>
                  simp only [List.get?] at hk
                  cases hk
            · intro k hk
              simp only [List.length_singleton] at hk
              have hk0 : k = 0 := by omega
              subst hk0
              refine ⟨_, rfl, fun _ => ?_, by intro h; cases h⟩
              simp [Desc.dirty, Desc.core]
              omega
            · refine ⟨child.withDirty NODE_DIRTY, ?_, fun _ =>
                dirty_withDirty child NODE_DIRTY, by intro h; cases h⟩
              simp only [List.map_cons, List.map_nil]
              rw [descAtPath_cons_of_get _ _ _ _ (by
                simpa [Desc.children] using hL1)]
              rfl
            · intro h
              cases h
          · -- descent continues inside the containing child
            rw [Nat.sub_zero] at hL1
            unfold MainProp at hMP
            rw [hmdt] at hMP
            simp only at hMP
            obtain ⟨C1c, C2c, C3c, C4c, C5c⟩ := hMP
            refine ⟨?_, ?_, ?_, ?_, ?_⟩
            · intro s hs
              rcases List.mem_cons.1 hs with hs | hs
              · subst hs
                rw [hsf, hst, hsb, hss]
                exact ⟨hf1, hf2⟩
              · exact C1c s hs
            · intro k s hk
              cases k with
              | zero =>
                  simp only [List.get?] at hk
                  injection hk with hk
                  subst hk
                  refine ⟨.node c n o i cs tv, child, rfl, hgetc, hsb, hss,
                    ?_⟩
                  rw [hsoff]
                  simp [offsetOfChild, Desc.children]
              | succ k =>
                  simp only [List.get?] at hk
                  obtain ⟨x, cNext, hx, hrest⟩ := C2c k s hk
                  refine ⟨x, cNext, ?_, hrest⟩
                  simp only [List.map_cons, List.take_succ_cons]
                  rw [descAtPath_cons_of_get _ _ _ _ hgetc]
                  exact hx
            · intro k hk
              cases k with
              | zero =>
                  refine ⟨_, rfl, fun _ => ?_, by intro h; cases h⟩
                  simp only [Desc.dirty, Desc.core]
                  calc CHILD_DIRTY ≤ lvl := hlvl
                    _ ≤ max ((some lvl).getD CONTENT_DIRTY) _ := by
                        simp [le_max_iff]
              | succ k =>
                  simp only [List.length_cons] at hk
                  have hk2 : k < tr2.length := by omega
                  obtain ⟨x, hx, hrest⟩ := C3c k hk2
                  refine ⟨x, ?_, hrest⟩
                  simp only [List.map_cons, List.take_succ_cons]
                  rw [descAtPath_cons_of_get _ _ _ _ (by
                    simpa [Desc.children] using hL1)]
                  exact hx
            · obtain ⟨x, hx, hrest⟩ := C4c
              refine ⟨x, ?_, hrest⟩
              simp only [List.map_cons]
              rw [descAtPath_cons_of_get _ _ _ _ (by
                simpa [Desc.children] using hL1)]
              exact hx
            · intro hcbF
              obtain ⟨x, hx, hrest⟩ := C5c hcbF
              refine ⟨x, ?_, hrest⟩
              simp only [List.map_cons]
              rw [descAtPath_cons_of_get _ _ _ _ hgetc]
              exact hx
  | .mark c m cs, f, t => by
      have LP := md_mainList f t 0 0 cs
      unfold ListProp at LP
      unfold MainProp
      simp only [markDirtyD, mdTrace]
      cases htr : (mdTraceChildren f t 0 0 cs).1 with
      | nil =>
          obtain ⟨hLA, hLP, hlf, hlt, hcb, hmin⟩ := LP.1 htr
          rw [hlf, hlt, hcb]
          refine ⟨by simp, by simp, by simp, ⟨_, rfl, ?_, ?_⟩, ?_⟩
          · intro h
            cases h
          · intro _
            refine ⟨fun _ => rfl, by intro h; cases h⟩
          · intro _
            refine ⟨.mark c m cs, rfl, ?_⟩
            intro j c2 hget
            have := hmin j c2 (by simpa [Desc.children] using hget)
            simpa [offsetOfChild, Desc.children] using this
      | cons step tr2 =>
          obtain ⟨hidx0, child, hget, hsf, hst, hsoff, hsb, hss, hf1, hf2,
            ⟨lvl, hLA, hlvl⟩, hdisj⟩ := LP.2 step tr2 htr
          rw [Nat.sub_zero] at hget hsoff
          have hgetc : (Desc.mark c m cs).children.get? step.idx
              = some child := by simpa [Desc.children] using hget
          rcases hdisj with ⟨hcbT, htr2, hlfE, hltE, hL1, hLP0⟩ |
            ⟨hmdt, hL1, hLP2, hMP⟩
          · subst htr2
            rw [Nat.sub_zero] at hL1
            rw [hcbT]
            refine ⟨?_, ?_, ?_, ?_, ?_⟩
            · intro s hs
              simp only [List.mem_singleton] at hs
              subst hs
              rw [hsf, hst, hsb, hss]
              exact ⟨hf1, hf2⟩
            · intro k s hk
              cases k with
              | zero =>
                  simp only [List.get?] at hk
                  injection hk with hk
                  subst hk
                  refine ⟨.mark c m cs, child, rfl, hgetc, hsb, hss, ?_⟩
                  rw [hsoff]
                  simp [offsetOfChild, Desc.children]
              | succ k =>
                  simp only [List.get?] at hk
                  cases hk
            · intro k hk
              simp only [List.length_singleton] at hk
              have hk0 : k = 0 := by omega
              subst hk0
              refine ⟨_, rfl, (by intro h; cases h), fun _ => rfl⟩
            · refine ⟨child.withDirty NODE_DIRTY, ?_, fun _ =>
                dirty_withDirty child NODE_DIRTY, by intro h; cases h⟩
              simp only [List.map_cons, List.map_nil]
              rw [descAtPath_cons_of_get _ _ _ _ (by
                simpa [Desc.children] using hL1)]
              rfl
            · intro h
              cases h
          · rw [Nat.sub_zero] at hL1
            unfold MainProp at hMP
            rw [hmdt] at hMP
            simp only at hMP
            obtain ⟨C1c, C2c, C3c, C4c, C5c⟩ := hMP
            refine ⟨?_, ?_, ?_, ?_, ?_⟩
            · intro s hs
              rcases List.mem_cons.1 hs with hs | hs
              · subst hs
                rw [hsf, hst, hsb, hss]
                exact ⟨hf1, hf2⟩
              · exact C1c s hs
            · intro k s hk
              cases k with
              | zero =>
                  simp only [List.get?] at hk
                  injection hk with hk
                  subst hk
                  refine ⟨.mark c m cs, child, rfl, hgetc, hsb, hss, ?_⟩
                  rw [hsoff]
                  simp [offsetOfChild, Desc.children]
              | succ k =>
                  simp only [List.get?] at hk
                  obtain ⟨x, cNext, hx, hrest⟩ := C2c k s hk
                  refine ⟨x, cNext, ?_, hrest⟩
                  simp only [List.map_cons, List.take_succ_cons]
                  rw [descAtPath_cons_of_get _ _ _ _ hgetc]
                  exact hx
            · intro k hk
              cases k with
              | zero =>
                  refine ⟨_, rfl, (by intro h; cases h), fun _ => rfl⟩
              | succ k =>
                  simp only [List.length_cons] at hk
                  have hk2 : k < tr2.length := by omega
                  obtain ⟨x, hx, hrest⟩ := C3c k hk2
                  refine ⟨x, ?_, hrest⟩
                  simp only [List.map_cons, List.take_succ_cons]
                  rw [descAtPath_cons_of_get _ _ _ _ (by
                    simpa [Desc.children] using hL1)]
                  exact hx
            · obtain ⟨x, hx, hrest⟩ := C4c
              refine ⟨x, ?_, hrest⟩
              simp only [List.map_cons]
              rw [descAtPath_cons_of_get _ _ _ _ (by
                simpa [Desc.children] using hL1)]
              exact hx
            · intro hcbF
              obtain ⟨x, hx, hrest⟩ := C5c hcbF
              refine ⟨x, ?_, hrest⟩
              simp only [List.map_cons]
              rw [descAtPath_cons_of_get _ _ _ _ hgetc]
              exact hx
  | .widget c w, f, t => by
      unfold MainProp
      simp only [markDirtyD, mdTrace]
      refine ⟨by simp, by simp, by simp, ⟨_, rfl, ?_, ?_⟩, ?_⟩
      · intro h
        cases h
      · intro _
        exact ⟨(by intro h; cases h), fun _ => rfl⟩
      · intro _
        refine ⟨.widget c w, rfl, ?_⟩
        intro j c2 hget
        simp [Desc.children] at hget
  | .hack c, f, t => by
      unfold MainProp
      simp only [markDirtyD, mdTrace]
      refine ⟨by simp, by simp, by simp, ⟨_, rfl, ?_, ?_⟩, ?_⟩
      · intro h
        cases h
      · intro _
        exact ⟨(by intro h; cases h), fun _ => rfl⟩
      · intro _
        refine ⟨.hack c, rfl, ?_⟩
        intro j c2 hget
        simp [Desc.children] at hget

theorem md_mainList : ∀ (f t offset : Int) (i : Nat) (cs : List Desc),
    ListProp f t offset i cs
  | f, t, offset, i, [] => by
      unfold ListProp
      simp only [markDirtyChildren, mdTraceChildren]
      constructor
      · intro _
        refine ⟨trivial, trivial, trivial, trivial, trivial, ?_⟩
        intro j child h
        simp at h
      · intro step tr2 h
        cases h
  | f, t, offset, i, child :: rest => by
      unfold ListProp
      by_cases hov : mdOverlap f t offset (offset + (Desc.size child : Int))
      · by_cases hfit : offset + (Desc.border child : Int) ≤ f ∧
            t ≤ offset + (Desc.size child : Int) - (Desc.border child : Int)
        · by_cases hcb : f = offset + (Desc.border child : Int) ∧
              t = offset + (Desc.size child : Int) - (Desc.border child : Int) ∧
              (child.core.contentLost || child.core.domParentMismatch) = true
          · -- short-circuit (`NODE_DIRTY` the exactly-covered child)
            simp only [markDirtyChildren, mdTraceChildren,
              if_pos hov, if_pos hfit, if_pos hcb]
            constructor
            · intro h
              exact List.noConfusion h
            · intro step tr2 heq
              injection heq with h1 h2
              subst h1
              subst h2
              refine ⟨le_refl i, child, by simp [Nat.sub_self], by trivial,
                by trivial, by simp [Nat.sub_self, Desc.sizeList], by trivial,
                by trivial, hfit.1, hfit.2, ⟨_, by trivial, ?_⟩,
                Or.inl ⟨by trivial, by trivial, by trivial, by trivial,
                  by simp [Nat.sub_self], by trivial⟩⟩
              split
              · decide
              · decide
          · -- recurse into the containing child
            simp only [markDirtyChildren, mdTraceChildren,
              if_pos hov, if_pos hfit, if_neg hcb]
            constructor
            · intro h
              exact List.noConfusion h
            · intro step tr2 heq
              injection heq with h1 h2
              subst h1
              subst h2
              refine ⟨le_refl i, child, by simp [Nat.sub_self], by trivial,
                by trivial, by simp [Nat.sub_self, Desc.sizeList], by trivial,
                by trivial, hfit.1, hfit.2, ⟨_, by trivial, ?_⟩,
                Or.inr ⟨by trivial, by simp [Nat.sub_self], by trivial,
                  md_main child (f - (offset + (Desc.border child : Int)))
                    (t - (offset + (Desc.border child : Int)))⟩⟩
              split
              · decide
              · decide
        · -- overlapping child that does not contain the range
          simp only [markDirtyChildren, mdTraceChildren,
            if_pos hov, if_neg hfit]
          have IH := md_mainList f t (offset + (Desc.size child : Int))
            (i + 1) rest
          unfold ListProp at IH
          constructor
          · intro h
            obtain ⟨hLA, hLP, hlf, hlt, hcb2, hmin⟩ := IH.1 h
            refine ⟨hLA, hLP, hlf, hlt, hcb2, ?_⟩
            intro j c2 hget
            cases j with
            | zero =>
                simp only [List.get?] at hget
                injection hget with hc2
                subst hc2
                simp only [List.take_zero, Desc.sizeList, Nat.cast_zero,
                  add_zero]
                intro hcon
                exact hfit ⟨hcon.2.1, hcon.2.2⟩
            | succ j =>
                simp only [List.get?] at hget
                have hoff : offset +
                    (Desc.sizeList (List.take (j + 1) (child :: rest)) : Int)
                    = offset + (Desc.size child : Int) +
                      (Desc.sizeList (List.take j rest) : Int) := by
                  simp only [List.take_succ_cons, Desc.sizeList]
                  push_cast
                  ring
                rw [hoff]
                exact hmin j c2 hget
          · intro step tr2 heq
            obtain ⟨hidx, c2, hget, hsf, hst, hsoff, hsb, hss, hf1, hf2,
              hlvl, hdisj⟩ := IH.2 step tr2 heq
            have hidx2 : i ≤ step.idx := by omega
            have hsub : step.idx - i = (step.idx - (i + 1)) + 1 := by omega
            have hoff : offset +
                (Desc.sizeList (List.take (step.idx - i) (child :: rest))
                  : Int)
                = offset + (Desc.size child : Int) +
                  (Desc.sizeList (List.take (step.idx - (i + 1)) rest)
                    : Int) := by
              rw [hsub]
              simp only [List.take_succ_cons, Desc.sizeList]
              push_cast
              ring
            refine ⟨hidx2, c2, ?_, hsf, hst, ?_, hsb, hss, hf1, hf2, hlvl,
              ?_⟩
            · rw [hsub]
              simpa using hget
            · rw [hoff]
              exact hsoff
            · rcases hdisj with ⟨hA, hB, hC, hD, hE, hF⟩ | ⟨hA, hB, hC, hD⟩
              · refine Or.inl ⟨hA, hB, hC, hD, ?_, hF⟩
                rw [hsub]
                simpa using hE
              · refine Or.inr ⟨hA, ?_, hC, hD⟩
                rw [hsub]
                simpa using hB
      · -- child not overlapping the range at all
        simp only [markDirtyChildren, mdTraceChildren, if_neg hov]
        have IH := md_mainList f t (offset + (Desc.size child : Int))
          (i + 1) rest
        unfold ListProp at IH
        constructor
        · intro h
          obtain ⟨hLA, hLP, hlf, hlt, hcb2, hmin⟩ := IH.1 h
          refine ⟨hLA, hLP, hlf, hlt, hcb2, ?_⟩
          intro j c2 hget
          cases j with
          | zero =>
              simp only [List.get?] at hget
              injection hget with hc2
              subst hc2
              simp only [List.take_zero, Desc.sizeList, Nat.cast_zero,
                add_zero]
              intro hcon
              exact hov hcon.1
          | succ j =>
              simp only [List.get?] at hget
              have hoff : offset +
                  (Desc.sizeList (List.take (j + 1) (child :: rest)) : Int)
                  = offset + (Desc.size child : Int) +
                    (Desc.sizeList (List.take j rest) : Int) := by
                simp only [List.take_succ_cons, Desc.sizeList]
                push_cast
                ring
              rw [hoff]
              exact hmin j c2 hget
        · intro step tr2 heq
          obtain ⟨hidx, c2, hget, hsf, hst, hsoff, hsb, hss, hf1, hf2,
            hlvl, hdisj⟩ := IH.2 step tr2 heq
          have hidx2 : i ≤ step.idx := by omega
          have hsub : step.idx - i = (step.idx - (i + 1)) + 1 := by omega
          have hoff : offset +
              (Desc.sizeList (List.take (step.idx - i) (child :: rest))
                : Int)
              = offset + (Desc.size child : Int) +
                (Desc.sizeList (List.take (step.idx - (i + 1)) rest)
                  : Int) := by
            rw [hsub]
            simp only [List.take_succ_cons, Desc.sizeList]
            push_cast
            ring
          refine ⟨hidx2, c2, ?_, hsf, hst, ?_, hsb, hss, hf1, hf2, hlvl,
            ?_⟩
          · rw [hsub]
            simpa using hget
          · rw [hoff]
            exact hsoff
          · rcases hdisj with ⟨hA, hB, hC, hD, hE, hF⟩ | ⟨hA, hB, hC, hD⟩
            · refine Or.inl ⟨hA, hB, hC, hD, ?_, hF⟩
              rw [hsub]
              simpa using hE
            · refine Or.inr ⟨hA, ?_, hC, hD⟩
              rw [hsub]
              simpa using hB

end

theorem md_overlap_marks_node_dirty :
    ∀ (cs : List Desc) (f t offset : Int) (i j : Nat) (child : Desc),
    cs.get? j = some child →
    mdReaches f t offset i j cs = true →
    mdOverlap f t (offset + (Desc.sizeList (cs.take j) : Int))
      (offset + (Desc.sizeList (cs.take j) : Int) + (child.size : Int)) →
    ¬(offset + (Desc.sizeList (cs.take j) : Int) + (child.border : Int)
        ≤ f ∧
      t ≤ offset + (Desc.sizeList (cs.take j) : Int) +
        (child.size : Int) - (child.border : Int)) →
    (markDirtyChildren f t offset cs).1.get? j =
      some (child.withDirty NODE_DIRTY) := by
  intro cs
  induction cs with
  | nil =>
      intro f t offset i j child hget _ _ _
      simp at hget
  | cons c rest ih =>
      intro f t offset i j child hget hreach hov hnc
      cases j with
      | zero =>
          have hc : child = c := by
            simp [List.get?] at hget
            exact hget.symm
          subst hc
          simp only [List.take_zero, Desc.sizeList, Nat.cast_zero,
            Int.add_zero] at hov hnc
          simp only [markDirtyChildren]
          rw [if_pos hov]
          rw [if_neg (by
            intro hcontain
            exact hnc ⟨hcontain.1, by omega⟩)]
          rfl
      | succ j' =>
          have hget' : rest.get? j' = some child := hget
          have hsz : (Desc.sizeList (List.take (j' + 1) (c :: rest))
              : Int) = (Desc.size c : Int) +
              (Desc.sizeList (List.take j' rest) : Int) := by
            simp only [List.take_succ_cons, Desc.sizeList]
            push_cast
            ring
          by_cases hov0 : mdOverlap f t offset
              (offset + (Desc.size c : Int))
          · by_cases hcont0 : offset + (Desc.border c : Int) ≤ f ∧
                t ≤ offset + (Desc.size c : Int) - (Desc.border c : Int)
            · exfalso
              have htr : ∃ tr2 lf lt cb,
                  mdTraceChildren f t offset i (c :: rest) =
                  (⟨i, f, t, offset, Desc.border c, Desc.size c⟩ :: tr2,
                    lf, lt, cb) := by
                simp only [mdTraceChildren]
                rw [if_pos hov0]
                rw [if_pos hcont0]
                by_cases hsc : f = offset + (Desc.border c : Int) ∧
                    t = offset + (Desc.size c : Int) -
                      (Desc.border c : Int) ∧
                    (c.core.contentLost || c.core.domParentMismatch)
                      = true
                · rw [if_pos hsc]
                  exact ⟨[], _, _, _, rfl⟩
                · rw [if_neg hsc]
                  exact ⟨_, _, _, _, rfl⟩
              obtain ⟨tr2, lf, lt, cb, htr⟩ := htr
              unfold mdReaches at hreach
              rw [htr] at hreach
              have h2 : i + (j' + 1) < i := of_decide_eq_true hreach
              omega
            · have hstep : markDirtyChildren f t offset (c :: rest) =
                  (c.withDirty NODE_DIRTY ::
                    (markDirtyChildren f t
                      (offset + (Desc.size c : Int)) rest).1,
                   (markDirtyChildren f t
                      (offset + (Desc.size c : Int)) rest).2.1,
                   (markDirtyChildren f t
                      (offset + (Desc.size c : Int)) rest).2.2) := by
                simp only [markDirtyChildren]
                rw [if_pos hov0]
                rw [if_neg (by
                  intro hcontain
                  exact hcont0 ⟨hcontain.1, by omega⟩)]
              have htr2 : mdTraceChildren f t offset i (c :: rest) =
                  mdTraceChildren f t (offset + (Desc.size c : Int))
                    (i + 1) rest := by
                simp only [mdTraceChildren]
                rw [if_pos hov0]
                rw [if_neg (by
                  intro hcontain
                  exact hcont0 ⟨hcontain.1, by omega⟩)]
              rw [hstep]
              show (markDirtyChildren f t
                (offset + (Desc.size c : Int)) rest).1.get? j' = _
              apply ih f t (offset + (Desc.size c : Int)) (i + 1) j'
                child hget'
              · unfold mdReaches at hreach ⊢
                rw [htr2] at hreach
                cases hh : (mdTraceChildren f t
                    (offset + (Desc.size c : Int)) (i + 1) rest).1.head?
                    with
                | none => rfl
                | some step =>
                    rw [hh] at hreach
                    have h2 : i + (j' + 1) < step.idx :=
                      of_decide_eq_true hreach
                    exact decide_eq_true (by omega)
              · rw [hsz] at hov
                have harr : offset + ((Desc.size c : Int) +
                    (Desc.sizeList (List.take j' rest) : Int)) =
                    offset + (Desc.size c : Int) +
                    (Desc.sizeList (List.take j' rest) : Int) := by ring
                rw [harr] at hov
                exact hov
              · rw [hsz] at hnc
                intro hcontain
                apply hnc
                exact ⟨by omega, by omega⟩
          · have hstep : markDirtyChildren f t offset (c :: rest) =
                (c :: (markDirtyChildren f t
                    (offset + (Desc.size c : Int)) rest).1,
                 (markDirtyChildren f t
                    (offset + (Desc.size c : Int)) rest).2.1,
                 (markDirtyChildren f t
                    (offset + (Desc.size c : Int)) rest).2.2) := by
              simp only [markDirtyChildren]
              rw [if_neg hov0]
            have htr2 : mdTraceChildren f t offset i (c :: rest) =
                mdTraceChildren f t (offset + (Desc.size c : Int))
                  (i + 1) rest := by
              simp only [mdTraceChildren]
              rw [if_neg hov0]
            rw [hstep]
            show (markDirtyChildren f t
              (offset + (Desc.size c : Int)) rest).1.get? j' = _
            apply ih f t (offset + (Desc.size c : Int)) (i + 1) j'
              child hget'
            · unfold mdReaches at hreach ⊢
              rw [htr2] at hreach
              cases hh : (mdTraceChildren f t
                  (offset + (Desc.size c : Int)) (i + 1) rest).1.head?
                  with
              | none => rfl
              | some step =>
                  rw [hh] at hreach
                  have h2 : i + (j' + 1) < step.idx :=
                    of_decide_eq_true hreach
                  exact decide_eq_true (by omega)
            · rw [hsz] at hov
              have harr : offset + ((Desc.size c : Int) +
                  (Desc.sizeList (List.take j' rest) : Int)) =
                  offset + (Desc.size c : Int) +
                  (Desc.sizeList (List.take j' rest) : Int) := by ring
              rw [harr] at hov
              exact hov
            · rw [hsz] at hnc
              intro hcontain
              apply hnc
              exact ⟨by omega, by omega⟩
/-- C3 (amended): `markDirty(f, t)` descends along the chain of child
descriptors whose border-adjusted spans fully contain the translated
range (recorded by `mdTrace`), entering real children of the tree at
their real offsets; after the call every strict ancestor of the final
(minimal covering) descriptor that is node-backed has dirty level at
least `CHILD_DIRTY`, while mark-wrapper ancestors transfer their level
to the nearest node-backed ancestor and end `NOT_DIRTY` (not
`>= CHILD_DIRTY` as claimed); the final descriptor itself ends
`NODE_DIRTY` when the range is exactly a child's interior with
lost/detached host content, and `CONTENT_DIRTY` otherwise (not
`CHILD_DIRTY` when the range avoids its boundary, as claimed) unless it
is a mark wrapper; when the descent falls through, no child of the
final descriptor both overlaps and contains the range, so the final
descriptor is the deepest container; and (the retained original
clause) any child the loop reaches that the range strictly overlaps
but does not fit inside — within its border-adjusted span — is set to
`NODE_DIRTY` in place while the walk continues. -/
theorem c3_markDirty_propagation :
    (∀ (d : Desc) (f t : Int), MainProp d f t) ∧
    (∀ (cs : List Desc) (f t offset : Int) (i j : Nat) (child : Desc),
      cs.get? j = some child →
      mdReaches f t offset i j cs = true →
      mdOverlap f t (offset + (Desc.sizeList (cs.take j) : Int))
        (offset + (Desc.sizeList (cs.take j) : Int) +
          (child.size : Int)) →
      ¬(offset + (Desc.sizeList (cs.take j) : Int) +
          (child.border : Int) ≤ f ∧
        t ≤ offset + (Desc.sizeList (cs.take j) : Int) +
          (child.size : Int) - (child.border : Int)) →
      (markDirtyChildren f t offset cs).1.get? j =
        some (child.withDirty NODE_DIRTY)) :=
  ⟨md_main, md_overlap_marks_node_dirty⟩

/-- Witness for `c3_markDirty_propagation`: on a paragraph holding an
em-mark wrapper holding text "abcd", marking range [1,2] dirty leaves
the mark wrapper (the strict ancestor at path [0]) at `NOT_DIRTY`. -/
theorem c3_markDirty_propagation_witness :
    ((∃ x, descAtPath
        ((markDirtyD
          (Desc.node ⟨0, 0, 0, 0, 0, false, false⟩
          (.elem 1 0 [] false true true [.text [] ['a', 'b', 'c', 'd']]) []
          .empty
          [Desc.mark ⟨1, 0, 1, 1, 1, false, false⟩ ⟨⟨3, true⟩, 0⟩
            [Desc.node ⟨2, 0, 2, 2, 2, false, false⟩ (.text [] ['a', 'b', 'c', 'd'])
              [] .empty [] ['a', 'b', 'c', 'd']]] []) 1 2).1)
        [0] = some x ∧ x.dirty = NOT_DIRTY) ∧
     (markDirtyChildren 1 3 0
        [Desc.node ⟨5, 0, 5, 5, 0, false, false⟩ (.text [] ['a', 'b'])
           [] .empty [] ['a', 'b'],
         Desc.node ⟨6, 0, 6, 6, 0, false, false⟩ (.text [] ['c', 'd'])
           [] .empty [] ['c', 'd']]).1.get? 0 =
       some ((Desc.node ⟨5, 0, 5, 5, 0, false, false⟩
         (.text [] ['a', 'b']) [] .empty [] ['a', 'b']).withDirty
           NODE_DIRTY)) := by
  refine ⟨?_, c3_markDirty_propagation.2
    [Desc.node ⟨5, 0, 5, 5, 0, false, false⟩ (.text [] ['a', 'b'])
       [] .empty [] ['a', 'b'],
     Desc.node ⟨6, 0, 6, 6, 0, false, false⟩ (.text [] ['c', 'd'])
       [] .empty [] ['c', 'd']] 1 3 0 0 0
    (Desc.node ⟨5, 0, 5, 5, 0, false, false⟩ (.text [] ['a', 'b'])
       [] .empty [] ['a', 'b'])
    (by decide) (by decide) (by decide) (by decide)⟩
  obtain ⟨x, hx, hnb, hmk⟩ :=
    (c3_markDirty_propagation.1
      (Desc.node ⟨0, 0, 0, 0, 0, false, false⟩
          (.elem 1 0 [] false true true [.text [] ['a', 'b', 'c', 'd']]) []
          .empty
          [Desc.mark ⟨1, 0, 1, 1, 1, false, false⟩ ⟨⟨3, true⟩, 0⟩
            [Desc.node ⟨2, 0, 2, 2, 2, false, false⟩ (.text [] ['a', 'b', 'c', 'd'])
              [] .empty [] ['a', 'b', 'c', 'd']]] []) 1 2).2.2.1 1 (by decide)
  rw [show (List.take 1 (List.map MdStep.idx
      (mdTrace
        (Desc.node ⟨0, 0, 0, 0, 0, false, false⟩
          (.elem 1 0 [] false true true [.text [] ['a', 'b', 'c', 'd']]) []
          .empty
          [Desc.mark ⟨1, 0, 1, 1, 1, false, false⟩ ⟨⟨3, true⟩, 0⟩
            [Desc.node ⟨2, 0, 2, 2, 2, false, false⟩ (.text [] ['a', 'b', 'c', 'd'])
              [] .empty [] ['a', 'b', 'c', 'd']]] []) 1 2).1)) = [0] by decide] at hx
  have heval : descAtPath
      ((markDirtyD
        (Desc.node ⟨0, 0, 0, 0, 0, false, false⟩
          (.elem 1 0 [] false true true [.text [] ['a', 'b', 'c', 'd']]) []
          .empty
          [Desc.mark ⟨1, 0, 1, 1, 1, false, false⟩ ⟨⟨3, true⟩, 0⟩
            [Desc.node ⟨2, 0, 2, 2, 2, false, false⟩ (.text [] ['a', 'b', 'c', 'd'])
              [] .empty [] ['a', 'b', 'c', 'd']]] []) 1 2).1)
      [0] = some (Desc.mark ⟨1, NOT_DIRTY, 1, 1, 1, false, false⟩ ⟨⟨3, true⟩, 0⟩
        [Desc.node ⟨2, CONTENT_DIRTY, 2, 2, 2, false, false⟩
          (.text [] ['a', 'b', 'c', 'd']) [] .empty []
          ['a', 'b', 'c', 'd']]) := by decide
  have hx2 := hx
  rw [heval] at hx2
  injection hx2 with hx3
  refine ⟨x, hx, hmk ?_⟩
  rw [← hx3]
  decide

/-- C3 counterexample: on a paragraph > em-mark > text "abcd" tree,
marking range [1,2] dirty descends to the text descriptor (path
[0, 0]); the mark-wrapper strict ancestor at [0] ends `NOT_DIRTY`
(below the claimed `has-dirty-descendant`), and the minimal covering
text descriptor ends `CONTENT_DIRTY` even though the range [1,2]
touches neither of its boundaries 0 and 4 (the claim predicts
`has-dirty-descendant` there). -/
theorem c3_counterexample :
    (List.map MdStep.idx (mdTrace
      (Desc.node ⟨0, 0, 0, 0, 0, false, false⟩
          (.elem 1 0 [] false true true [.text [] ['a', 'b', 'c', 'd']]) []
          .empty
          [Desc.mark ⟨1, 0, 1, 1, 1, false, false⟩ ⟨⟨3, true⟩, 0⟩
            [Desc.node ⟨2, 0, 2, 2, 2, false, false⟩ (.text [] ['a', 'b', 'c', 'd'])
              [] .empty [] ['a', 'b', 'c', 'd']]] []) 1 2).1) = [0, 0] ∧
    (mdTrace
      (Desc.node ⟨0, 0, 0, 0, 0, false, false⟩
          (.elem 1 0 [] false true true [.text [] ['a', 'b', 'c', 'd']]) []
          .empty
          [Desc.mark ⟨1, 0, 1, 1, 1, false, false⟩ ⟨⟨3, true⟩, 0⟩
            [Desc.node ⟨2, 0, 2, 2, 2, false, false⟩ (.text [] ['a', 'b', 'c', 'd'])
              [] .empty [] ['a', 'b', 'c', 'd']]] []) 1 2).2.2.2 = false ∧
    (mdTrace
      (Desc.node ⟨0, 0, 0, 0, 0, false, false⟩
          (.elem 1 0 [] false true true [.text [] ['a', 'b', 'c', 'd']]) []
          .empty
          [Desc.mark ⟨1, 0, 1, 1, 1, false, false⟩ ⟨⟨3, true⟩, 0⟩
            [Desc.node ⟨2, 0, 2, 2, 2, false, false⟩ (.text [] ['a', 'b', 'c', 'd'])
              [] .empty [] ['a', 'b', 'c', 'd']]] []) 1 2).2.1 ≠ 0 ∧
    (mdTrace
      (Desc.node ⟨0, 0, 0, 0, 0, false, false⟩
          (.elem 1 0 [] false true true [.text [] ['a', 'b', 'c', 'd']]) []
          .empty
          [Desc.mark ⟨1, 0, 1, 1, 1, false, false⟩ ⟨⟨3, true⟩, 0⟩
            [Desc.node ⟨2, 0, 2, 2, 2, false, false⟩ (.text [] ['a', 'b', 'c', 'd'])
              [] .empty [] ['a', 'b', 'c', 'd']]] []) 1 2).2.2.1 ≠ 4 ∧
    (∃ x, descAtPath
        ((markDirtyD
          (Desc.node ⟨0, 0, 0, 0, 0, false, false⟩
          (.elem 1 0 [] false true true [.text [] ['a', 'b', 'c', 'd']]) []
          .empty
          [Desc.mark ⟨1, 0, 1, 1, 1, false, false⟩ ⟨⟨3, true⟩, 0⟩
            [Desc.node ⟨2, 0, 2, 2, 2, false, false⟩ (.text [] ['a', 'b', 'c', 'd'])
              [] .empty [] ['a', 'b', 'c', 'd']]] []) 1 2).1)
        [0] = some x ∧ x.dirty < CHILD_DIRTY) ∧
    (∃ y, descAtPath
        ((markDirtyD
          (Desc.node ⟨0, 0, 0, 0, 0, false, false⟩
          (.elem 1 0 [] false true true [.text [] ['a', 'b', 'c', 'd']]) []
          .empty
          [Desc.mark ⟨1, 0, 1, 1, 1, false, false⟩ ⟨⟨3, true⟩, 0⟩
            [Desc.node ⟨2, 0, 2, 2, 2, false, false⟩ (.text [] ['a', 'b', 'c', 'd'])
              [] .empty [] ['a', 'b', 'c', 'd']]] []) 1 2).1)
        [0, 0] = some y ∧ y.size = 4 ∧ y.border = 0 ∧
        y.dirty = CONTENT_DIRTY ∧ y.dirty ≠ CHILD_DIRTY) := by
  refine ⟨by decide, by decide, by decide, by decide,
    ⟨Desc.mark ⟨1, NOT_DIRTY, 1, 1, 1, false, false⟩ ⟨⟨3, true⟩, 0⟩
      [Desc.node ⟨2, CONTENT_DIRTY, 2, 2, 2, false, false⟩
        (.text [] ['a', 'b', 'c', 'd']) [] .empty [] ['a', 'b', 'c', 'd']],
      by decide, by decide⟩,
    ⟨Desc.node ⟨2, CONTENT_DIRTY, 2, 2, 2, false, false⟩
      (.text [] ['a', 'b', 'c', 'd']) [] .empty [] ['a', 'b', 'c', 'd'],
      by decide, by decide, by decide, by decide, by decide⟩⟩

end ViewDescModel


namespace ViewDescModel

theorem domFromPosLoop_out_of_range (host : Host) (contentId : Nat)
    (pos : Int) : ∀ (cs : List Desc) (offset : Int),
    offset + (Desc.sizeList cs : Int) < pos →
    domFromPosLoop host contentId pos offset cs =
      .error (.invalidPosition pos)
  | [], offset, h => by
      simp only [Desc.sizeList, Nat.cast_zero, add_zero] at h
      unfold domFromPosLoop
      rw [if_neg (by omega)]
  | child :: rest, offset, h => by
      simp only [Desc.sizeList, Nat.cast_add, add_assoc] at h
      unfold domFromPosLoop
      rw [if_neg (by
        have h0 : (0 : Int) ≤ (Desc.size child : Int) +
            (Desc.sizeList rest : Int) := by positivity
        omega)]
      rw [if_neg (by
        have h0 : (0 : Int) ≤ (Desc.sizeList rest : Int) := by positivity
        omega)]
      exact domFromPosLoop_out_of_range host contentId pos rest
        (offset + (Desc.size child : Int)) (by omega)

/-- C7 (amended): for every descriptor owning a content host node,
`domFromPos` raises `InvalidPosition` — with no recovery or clamping —
at every offset strictly beyond the span its children accommodate;
offsets below the span (negative positions), however, are not detected
and descend into the first child (see the counterexample). -/
theorem c7_domFromPos_out_of_range (host : Host) (d : Desc) (pos : Int)
    (hc : d.hasContentDOM = true)
    (hp : (Desc.sizeList d.children : Int) < pos) :
    domFromPosD host d pos = .error (.invalidPosition pos) := by
  cases d with
  | node c n o i cs tv =>
      cases n with
      | text mks str => simp [Desc.hasContentDOM, PNode.isLeaf] at hc
      | elem ty a mks l ic b cnt =>
          simp only [Desc.hasContentDOM, PNode.isLeaf,
            Bool.not_eq_true'] at hc
          simp only [Desc.children] at hp
          simp only [domFromPosD, PNode.isText, PNode.isLeaf, hc,
            Bool.false_eq_true, if_false]
          exact domFromPosLoop_out_of_range host c.contentDomId pos cs 0
            (by omega)
  | mark c m cs =>
      simp only [Desc.children] at hp
      simp only [domFromPosD]
      exact domFromPosLoop_out_of_range host c.contentDomId pos cs 0
        (by omega)
  | widget c w => simp [Desc.hasContentDOM] at hc
  | hack c => simp [Desc.hasContentDOM] at hc

/-- Witness for `c7_domFromPos_out_of_range`: a paragraph descriptor
holding the text "ab" (children span 2) raises `InvalidPosition 5` at
offset 5. -/
theorem c7_domFromPos_out_of_range_witness :
    domFromPosD ⟨fun _ => 0, fun _ => 0⟩
      (Desc.node ⟨0, 0, 0, 0, 0, false, false⟩
        (.elem 1 0 [] false true true [.text [] ['a', 'b']]) [] .empty
        [Desc.node ⟨2, 0, 2, 2, 2, false, false⟩ (.text [] ['a', 'b'])
          [] .empty [] ['a', 'b']] []) 5 =
      .error (.invalidPosition 5) :=
  c7_domFromPos_out_of_range ⟨fun _ => 0, fun _ => 0⟩ _ 5 (by decide)
    (by decide)

/-- C7 counterexample: offset -1 is outside the span the children of
the paragraph can accommodate, yet `domFromPos` returns a host location
(inside the backing text node, at offset -1) instead of raising
`InvalidPosition`. -/
theorem c7_counterexample :
    domFromPosD ⟨fun _ => 0, fun _ => 0⟩
      (Desc.node ⟨0, 0, 0, 0, 0, false, false⟩
        (.elem 1 0 [] false true true [.text [] ['a', 'b']]) [] .empty
        [Desc.node ⟨2, 0, 2, 2, 2, false, false⟩ (.text [] ['a', 'b'])
          [] .empty [] ['a', 'b']] []) (-1) = .ok (2, -1) ∧
      (-1 : Int) < 0 := by
  constructor
  · rfl
  · decide

/-- C8 (confirmed): when no ancestor of the queried host location up to
the tree root carries a descriptor association, `posFromDOM` returns
the absent sentinel -1 (a null/absent result) rather than raising an
error. -/
theorem c8_posFromDOM_no_assoc (root : Desc) (localPos : Desc → Int)
    (chain : List (Option (List Nat)))
    (h : ∀ a ∈ chain, a = none) :
    posFromDOMW root localPos chain = -1 := by
  induction chain with
  | nil => rfl
  | cons a rest ih =>
      have ha := h a (List.mem_cons_self a rest)
      subst ha
      have hred : posFromDOMW root localPos (none :: rest) =
          posFromDOMW root localPos rest := rfl
      rw [hred]
      exact ih (fun x hx => h x (List.mem_cons_of_mem _ hx))

/-- Witness for `c8_posFromDOM_no_assoc`: a two-level ancestor chain
with no associations yields -1. -/
theorem c8_posFromDOM_no_assoc_witness :
    posFromDOMW (Desc.hack ⟨0, 0, 0, 0, 0, false, false⟩) (fun _ => 99)
      [none, none] = -1 :=
  c8_posFromDOM_no_assoc _ _ [none, none] (by simp)

/-- C10 (confirmed): for a text descriptor and any DOM offset into its
backing host text node, `localPosFromDOM` answers the descriptor's
start position plus the offset clamped (`Math.min`) to the document
text's length, and this never exceeds the descriptor's end position
(`posAtStart + size - 2*border`) even when the host text node holds
more characters than the document text. -/
theorem c10_text_localPosFromDOM (root : Desc) (p : List Nat)
    (c : DescCore) (mks : List MarkT) (str : List Char) (o : List Deco)
    (i : DecoSet) (cs : List Desc) (tvd : List Char)
    (offset sup start : Int)
    (hdesc : descAtPath root p =
      some (.node c (.text mks str) o i cs tvd))
    (hstart : posAtStartAux root p 0 = some start) :
    textLocalPosFromDOM root p c.nodeDomId offset sup =
      some (start + min offset (str.length : Int)) ∧
    start + min offset (str.length : Int) ≤
      start + ((Desc.node c (.text mks str) o i cs tvd).size : Int)
        - 2 * ((Desc.node c (.text mks str) o i cs tvd).border : Int) := by
  constructor
  · unfold textLocalPosFromDOM
    rw [hdesc, hstart]
    simp [PNode.isText, PNode.textStr]
  · simp only [Desc.size, Desc.border, PNode.nodeSize, PNode.isLeaf,
      if_true, Nat.cast_zero, mul_zero]
    have hm := min_le_right offset ((str.length : Nat) : Int)
    omega

/-- Witness for `c10_text_localPosFromDOM`: a root text descriptor for
"ab" queried at DOM offset 7 (host text longer than the document text)
answers 0 + min 7 2 = 2, its end position. -/
theorem c10_text_localPosFromDOM_witness :
    textLocalPosFromDOM
      (Desc.node ⟨2, 0, 2, 2, 2, false, false⟩ (.text [] ['a', 'b'])
        [] .empty [] ['a', 'b', 'x', 'y']) [] 2 7 0 =
      some (0 + min 7 ((['a', 'b'] : List Char).length : Int)) :=
  (c10_text_localPosFromDOM _ [] ⟨2, 0, 2, 2, 2, false, false⟩ [] _ []
    .empty [] ['a', 'b', 'x', 'y'] 7 0 0 rfl rfl).1

end ViewDescModel

namespace ViewDescModel

theorem withFlushedState_eval (viewDom stateId : Nat)
    (f : EdState → Except HostErr Bool × EdState) (st : EdState) :
    withFlushedState viewDom stateId f st =
      ((f (flushedState viewDom stateId st)).1,
        restoreFlushed viewDom stateId st
          ((f (flushedState viewDom stateId st)).2)) := rfl

theorem flushedState_sel (viewDom stateId : Nat) (st : EdState) :
    (flushedState viewDom stateId st).sel = st.sel := by
  unfold flushedState
  by_cases h1 : st.viewState ≠ stateId <;>
    by_cases h2 : st.active ≠ some viewDom <;>
    simp [h1, h2]

theorem flushedState_viewState_of_eq (viewDom stateId : Nat)
    (st : EdState) (h : st.viewState = stateId) :
    (flushedState viewDom stateId st).viewState = st.viewState := by
  unfold flushedState
  by_cases h2 : st.active ≠ some viewDom <;> simp [h, h2]

theorem flushedState_active_of_eq (viewDom stateId : Nat) (st : EdState)
    (h : st.active = some viewDom) :
    (flushedState viewDom stateId st).active = st.active := by
  unfold flushedState
  by_cases h1 : st.viewState ≠ stateId <;> simp [h, h1]

theorem restoreFlushed_sel (viewDom stateId : Nat) (st r2 : EdState) :
    (restoreFlushed viewDom stateId st r2).sel = r2.sel := by
  unfold restoreFlushed
  by_cases h1 : st.viewState ≠ stateId <;>
    by_cases h2 : st.active ≠ some viewDom ∧ st.active ≠ none <;>
    simp [h1, h2]

/-- C9 (amended): `withFlushedState` restores the applied view state on
every exit path, and refocuses the previously focused element on every
exit path whenever one existed, for any probe that does not itself
change those (the finally block guarantees this even when the probe
raises); but the horizontal move-caret probe restores the native
selection only on its non-raising path — its range/bidi restore runs
after `domAfterPos`, outside any finally block, so a raise there leaves
the moved selection in place (see the counterexample). -/
theorem c9_probe_restoration :
    (∀ (viewDom stateId : Nat)
       (f : EdState → Except HostErr Bool × EdState) (st : EdState),
       (∀ s, ((f s).2).viewState = s.viewState) →
       (∀ s, ((f s).2).active = s.active) →
       ((withFlushedState viewDom stateId f st).2).viewState =
           st.viewState ∧
         (st.active ≠ none →
           ((withFlushedState viewDom stateId f st).2).active =
             st.active)) ∧
    (∀ (viewDom stateId : Nat) (pt : Bool) (po pcs : Int)
       (rtl sm dirL : Bool) (modifyFn : NativeSel → NativeSel)
       (dres : Except HostErr Nat) (cf : Nat → Nat → Bool)
       (st : EdState) (r : SelRange), st.sel.ranges = [r] →
       ∀ res st2,
         endOfTextblockHorizontal viewDom stateId pt po pcs rtl sm dirL
           modifyFn dres cf st = (.ok res, st2) →
         st2.sel.ranges = [r] ∧
           (st.sel.bidiLevel ≠ none →
             st2.sel.bidiLevel = st.sel.bidiLevel)) := by
  constructor
  · intro viewDom stateId f st hf1 hf2
    rw [withFlushedState_eval]
    constructor
    · unfold restoreFlushed
      by_cases h1 : st.viewState ≠ stateId
      · simp [apply_ite EdState.viewState, h1]
      · rw [not_not] at h1
        simp [apply_ite EdState.viewState, h1, hf1,
          flushedState_viewState_of_eq]
    · intro hne
      unfold restoreFlushed
      by_cases h2 : st.active ≠ some viewDom
      · have hc : st.active ≠ some viewDom ∧ st.active ≠ none :=
          ⟨h2, hne⟩
        simp [apply_ite EdState.active, hc]
      · rw [not_not] at h2
        have hc : ¬(st.active ≠ some viewDom ∧ st.active ≠ none) := by
          intro hcon
          exact hcon.1 h2
        simp [apply_ite EdState.active, hc, hf2, h2,
          flushedState_active_of_eq]
  · intro viewDom stateId pt po pcs rtl sm dirL modifyFn dres cf st r
      hr res st2 heq
    by_cases hpt : pt = false
    · rw [hpt] at heq
      simp only [endOfTextblockHorizontal, Bool.not_false, if_true] at heq
      cases heq
      exact ⟨hr, fun _ => rfl⟩
    · have hpt2 : pt = true := by
        cases pt
        · exact absurd rfl hpt
        · rfl
      subst hpt2
      by_cases hearly : (!rtl || !sm) = true
      · simp only [endOfTextblockHorizontal, Bool.not_true,
          Bool.false_eq_true, if_false, hearly, if_true] at heq
        cases heq
        exact ⟨hr, fun _ => rfl⟩
      · simp only [endOfTextblockHorizontal, Bool.not_true,
          Bool.false_eq_true, if_false, hearly] at heq
        rw [withFlushedState_eval] at heq
        have e1 := congrArg Prod.fst heq
        have e2 := congrArg Prod.snd heq
        simp only at e1 e2
        have e2sel : st2.sel =
            ((horizProbeBody modifyFn dres cf
              (flushedState viewDom stateId st)).2).sel := by
          rw [← e2, restoreFlushed_sel]
        cases dres with
        | error e =>
            simp only [horizProbeBody] at e1
            cases e1
        | ok parentDOM =>
            simp only [horizProbeBody] at e2sel
            rw [flushedState_sel, hr] at e2sel
            constructor
            · rw [e2sel]
              rfl
            · intro hb
              rw [e2sel]
              cases hbl : st.sel.bidiLevel with
              | none => exact absurd hbl hb
              | some b => rfl

/-- Witness for `c9_probe_restoration` at a concrete flushed probe and
a concrete successful horizontal probe. -/
theorem c9_probe_restoration_witness :
    ((withFlushedState 3 2 (fun s => (.ok true, s))
        { viewState := 1, active := some 5,
          sel := ⟨[⟨10, 0, 10, 0⟩], 10, 0, none⟩ }).2).viewState = 1 ∧
    ∀ res st2,
      endOfTextblockHorizontal 3 2 true 1 5 true true true
        (fun s => { s with focusNode := 77 }) (.ok 4) (fun _ _ => true)
        { viewState := 1, active := some 5,
          sel := ⟨[⟨10, 0, 10, 0⟩], 10, 0, none⟩ } = (.ok res, st2) →
      st2.sel.ranges = [⟨10, 0, 10, 0⟩] := by
  constructor
  · exact (c9_probe_restoration.1 3 2 (fun s => (.ok true, s))
      { viewState := 1, active := some 5,
        sel := ⟨[⟨10, 0, 10, 0⟩], 10, 0, none⟩ }
      (fun _ => rfl) (fun _ => rfl)).1
  · intro res st2 heq
    exact (c9_probe_restoration.2 3 2 true 1 5 true true true
      (fun s => { s with focusNode := 77 }) (.ok 4) (fun _ _ => true)
      { viewState := 1, active := some 5,
        sel := ⟨[⟨10, 0, 10, 0⟩], 10, 0, none⟩ } ⟨10, 0, 10, 0⟩ rfl
      res st2 heq).1

/-- C9 counterexample: when `domAfterPos` raises inside the horizontal
probe (after `Selection.modify` already moved the caret), the view
state is restored by the finally block but the native selection is not:
the probe exits with the moved selection, refuting restoration on every
exit path. -/
theorem c9_counterexample :
    (endOfTextblockHorizontal 3 2 true 1 5 true true true
        (fun s => { s with focusNode := 77, focusOff := 9, ranges := [] })
        (.error .rangeError) (fun _ _ => true)
        { viewState := 1, active := some 5,
          sel := ⟨[⟨10, 0, 10, 0⟩], 10, 0, none⟩ }).1 =
      .error .rangeError ∧
    ((endOfTextblockHorizontal 3 2 true 1 5 true true true
        (fun s => { s with focusNode := 9, focusOff := 9, ranges := [] })
        (.error .rangeError) (fun _ _ => true)
        { viewState := 1, active := some 5,
          sel := ⟨[⟨10, 0, 10, 0⟩], 10, 0, none⟩ }).2).viewState = 1 ∧
    ((endOfTextblockHorizontal 3 2 true 1 5 true true true
        (fun s => { s with focusNode := 9, focusOff := 9, ranges := [] })
        (.error .rangeError) (fun _ _ => true)
        { viewState := 1, active := some 5,
          sel := ⟨[⟨10, 0, 10, 0⟩], 10, 0, none⟩ }).2).sel ≠
      ⟨[⟨10, 0, 10, 0⟩], 10, 0, none⟩ := by
  refine ⟨rfl, rfl, by decide⟩

end ViewDescModel

namespace ViewDescModel

/-- **C4.** With an active composition lock, `updateNextNode` refuses
the next node-backed descriptor whenever its host node is or contains
the locked node, except when the incoming child is a text node, the
descriptor is a text descriptor (not `NODE_DIRTY`) whose host text
node already holds the incoming text, and the outer decorations match;
in that excepted case the lock does not block, and the attempt
proceeds exactly when the ordinary `update` test succeeds.  (The
exception compares the host text with the incoming text; it is not a
"same-length text change" allowance.) -/
theorem c4_composition_lock (hv : HostView) (fuel : Nat) (child : PNode)
    (outer : List Deco) (inner : DecoSet) (index : Int) (u : Updater)
    (l : Nat) (next : Desc) (rest : List Desc)
    (hL : u.lock = some l)
    (hdrop : u.topChildren.drop u.index = next :: rest)
    (hnb : next.isNodeBacked = true)
    (hpm : idxOfId u.preMatched next.descId = none)
    (hcont : (next.domId == l ||
      (hv.isElement next.domId && hv.containsLockParent next.domId)) =
      true)
    (hok : (descUpdate hv fuel next child outer inner u.gen).2 = true) :
    (lockException child outer next = false →
      updateNextNode hv (fuel + 3) child outer inner index u = none) ∧
    (lockException child outer next = true →
      (updateNextNode hv (fuel + 3) child outer inner index u).isSome =
        ((descUpdate hv fuel next child outer inner u.gen).1).isSome) :=
  by
  have h1 : updateNextNode hv (fuel + 3) child outer inner index u =
      unnScan hv (fuel + 2) child outer inner index u u.index
        (u.topChildren.drop u.index) := rfl
  rw [h1, hdrop]
  have h2 : unnScan hv (fuel + 2) child outer inner index u u.index
      (next :: rest) =
      if next.isNodeBacked then
        match idxOfId u.preMatched next.descId with
        | some p =>
            if (p + u.preMatchOffset : Int) != index then none
            else unnHit hv (fuel + 1) child outer inner u u.index next
        | none => unnHit hv (fuel + 1) child outer inner u u.index next
      else unnScan hv (fuel + 1) child outer inner index u (u.index + 1)
        rest := rfl
  rw [h2, hnb, hpm]
  simp only [if_true]
  have h3 : unnHit hv (fuel + 1) child outer inner u u.index next =
      (if (match u.lock with
        | none => false
        | some l =>
            (next.domId == l ||
              (hv.isElement next.domId &&
                hv.containsLockParent next.domId))
            &&
            !(child.isText && next.pnodeD.isText &&
              next.domTextValueD == child.textStr &&
              next.dirty != NODE_DIRTY &&
              Desc.sameOuterDeco outer next.outerDecoD)) then none
      else match descUpdate hv fuel next child outer inner u.gen with
        | (none, dok) =>
            if dok then none else some { u with ok := false }
        | (some (next', g'), dok) =>
            let u1 := destroyBetween u.index u.index
              { u with gen := g', ok := u.ok && dok }
            some { u1 with
              topChildren := u1.topChildren.set u1.index next'
              index := u1.index + 1 }) := rfl
  rw [h3, hL]
  constructor
  · intro hexc
    simp only [lockException] at hexc
    simp only [hexc, hcont, Bool.not_false, Bool.and_true, if_true]
  · intro hexc
    simp only [lockException] at hexc
    simp only [hexc, Bool.not_true, Bool.and_false, if_false]
    cases hdu : descUpdate hv fuel next child outer inner u.gen with
    | mk fst snd =>
        rw [hdu] at hok
        cases fst with
        | none =>
            cases snd with
            | false => simp at hok
            | true => simp
        | some p =>
            cases p with
            | mk n2 g2 => simp

theorem c4_composition_lock_witness :
    (c4upd.lock = some 50 ∧
     c4upd.topChildren.drop c4upd.index = c4next :: [] ∧
     c4next.isNodeBacked = true ∧
     idxOfId c4upd.preMatched c4next.descId = none ∧
     (c4next.domId == 50 || (quietHost.isElement c4next.domId &&
       quietHost.containsLockParent c4next.domId)) = true ∧
     (descUpdate quietHost 1 c4next (.text [] ['a', 'b']) [] .empty
       c4upd.gen).2 = true ∧
     lockException (.text [] ['a', 'b']) [] c4next = true) ∧
    ((updateNextNode quietHost 4 (.text [] ['a', 'b']) [] .empty 0
        c4upd).isSome =
      ((descUpdate quietHost 1 c4next (.text [] ['a', 'b']) [] .empty
        c4upd.gen).1).isSome) :=
  ⟨by decide,
   (c4_composition_lock quietHost 1 (.text [] ['a', 'b']) [] .empty 0
      c4upd 50 c4next [] (by decide) (by decide) (by decide) (by decide)
      (by decide) (by decide)).2 (by decide)⟩

/-- **C4 counterexample.** A pure same-length text value change
(`"ab"` to `"cd"`) under identical outer decorations on a clean text
descriptor is still refused while the composition lock points at the
descriptor's host node (without the lock the same update proceeds):
the code's exception requires the host text to already equal the
incoming text, not merely a same-length change. -/
theorem c4_counterexample :
    (.text [] ['c', 'd'] : PNode).isText = true ∧
    (.text [] ['c', 'd'] : PNode).textStr.length =
      c4next.pnodeD.textStr.length ∧
    Desc.sameOuterDeco [] c4next.outerDecoD = true ∧
    c4next.dirty = NOT_DIRTY ∧
    (updateNextNode quietHost 4 (.text [] ['c', 'd']) [] .empty 0
      c4upd).isNone = true ∧
    ((updateNextNode quietHost 4 (.text [] ['c', 'd']) [] .empty 0
      { c4upd with lock := none }).map Updater.ok) = some true := by
  decide

theorem syncKeepGo_ge (u : Updater) (marks : List MarkT) :
    ∀ r k, k ≤ syncKeepGo u marks r k := by
  intro r
  induction r with
  | zero => intro k; simp [syncKeepGo]
  | succ r ih =>
      intro k
      simp only [syncKeepGo]
      by_cases h : syncKeepCond u marks k = true
      · simp only [h, if_true]
        exact Nat.le_trans (Nat.le_succ k) (ih (k + 1))
      · simp only [Bool.not_eq_true] at h
        simp [h]

theorem syncKeepGo_cond (u : Updater) (marks : List MarkT) :
    ∀ r k j, k ≤ j → j < syncKeepGo u marks r k →
      syncKeepCond u marks j = true := by
  intro r
  induction r with
  | zero =>
      intro k j hk hj
      simp only [syncKeepGo] at hj
      omega
  | succ r ih =>
      intro k j hk hj
      simp only [syncKeepGo] at hj
      by_cases h : syncKeepCond u marks k = true
      · rw [h] at hj
        simp only [if_true] at hj
        rcases Nat.eq_or_lt_of_le hk with he | hl
        · rw [he] at h; exact h
        · exact ih (k + 1) j hl hj
      · simp only [Bool.not_eq_true] at h
        rw [h] at hj
        simp only [Bool.false_eq_true, if_false] at hj
        omega

theorem syncKeepGo_stop (u : Updater) (marks : List MarkT) :
    ∀ r k, syncKeepGo u marks r k < k + r →
      syncKeepCond u marks (syncKeepGo u marks r k) = false := by
  intro r
  induction r with
  | zero =>
      intro k h
      simp only [syncKeepGo] at h
      omega
  | succ r ih =>
      intro k h
      simp only [syncKeepGo] at h ⊢
      by_cases hc : syncKeepCond u marks k = true
      · rw [hc]
        simp only [if_true]
        rw [hc] at h
        simp only [if_true] at h
        exact ih (k + 1) (by omega)
      · simp only [Bool.not_eq_true] at hc
        rw [hc]
        simp [hc]

/-- **C6.** `syncToMarks` keeps exactly the longest common prefix of
the live mark-wrapper stack and the target mark list (every kept level
satisfies the match-and-spanning test, and the first level beyond the
kept prefix fails it), then pops the rest (destroying their unvisited
children via `popLevel`'s `destroyRest`) and pushes or reuses wrappers
for the remaining marks; and on a fresh build of a paragraph with
children marked `[A,B]` then `[A,C]`, the single mark-`A` wrapper is
shared by both children while the `B` and `C` wrappers are distinct
descriptors. -/
theorem c6_syncToMarks_keep (u : Updater) (marks : List MarkT) :
    (∀ j, j < syncKeep u marks → syncKeepCond u marks j = true) ∧
    (syncKeep u marks < min u.stack.length marks.length →
      syncKeepCond u marks (syncKeep u marks) = false) ∧
    syncToMarks marks u =
      ((marks.drop
          (popN (u.stack.length - syncKeep u marks) u).stack.length).foldl
        (fun v m => pushLevel m v)
        (popN (u.stack.length - syncKeep u marks) u)) ∧
    ((createDesc quietHost 40 paraABAC [] .empty 0).2.2 = true ∧
     abacDesc.children.length = 1 ∧
     (abacDesc.children.headD dummyDesc).markOf = some markA ∧
     (abacDesc.children.headD dummyDesc).children.length = 2 ∧
     ((abacDesc.children.headD dummyDesc).children.getD 0
        dummyDesc).markOf = some markB ∧
     ((abacDesc.children.headD dummyDesc).children.getD 1
        dummyDesc).markOf = some markC ∧
     ((abacDesc.children.headD dummyDesc).children.getD 0
        dummyDesc).descId ≠
       ((abacDesc.children.headD dummyDesc).children.getD 1
        dummyDesc).descId ∧
     (((abacDesc.children.headD dummyDesc).children.getD 0
        dummyDesc).children.getD 0 dummyDesc).pnode? =
       some (.text [markA, markB] ['x']) ∧
     (((abacDesc.children.headD dummyDesc).children.getD 1
        dummyDesc).children.getD 0 dummyDesc).pnode? =
       some (.text [markA, markC] ['y'])) := by
  refine ⟨?_, ?_, rfl, by decide⟩
  · intro j hj
    exact syncKeepGo_cond u marks (min u.stack.length marks.length) 0 j
      (Nat.zero_le j) hj
  · intro h
    exact syncKeepGo_stop u marks (min u.stack.length marks.length) 0
      (by simpa [syncKeep] using h)

theorem c6_syncToMarks_keep_witness :
    ((0 < syncKeep c6upd [markA, markB] ∧
      syncKeepCond c6upd [markA, markB] 0 = true) ∧
     (syncKeep c6upd [markA, markB] <
        min c6upd.stack.length ([markA, markB].length) ∧
      syncKeepCond c6upd [markA, markB]
        (syncKeep c6upd [markA, markB]) = false)) :=
  ⟨⟨by decide,
    (c6_syncToMarks_keep c6upd [markA, markB]).1 0 (by decide)⟩,
   ⟨by decide,
    (c6_syncToMarks_keep c6upd [markA, markB]).2.1 (by decide)⟩⟩

end ViewDescModel

namespace ViewDescModel

theorem destroyBetween_self (a : Nat) (u : Updater) :
    destroyBetween a a u = u := by
  simp [destroyBetween]

theorem withDirty_self (d : Desc) (h : d.dirty = NOT_DIRTY) :
    d.withDirty NOT_DIRTY = d := by
  cases d with
  | widget c w =>
      cases c
      simp only [Desc.dirty, Desc.core] at h
      simp [Desc.withDirty, h]
  | mark c m cs =>
      cases c
      simp only [Desc.dirty, Desc.core] at h
      simp [Desc.withDirty, h]
  | node c n o i cs t =>
      cases c
      simp only [Desc.dirty, Desc.core] at h
      simp [Desc.withDirty, h]
  | hack c =>
      cases c
      simp only [Desc.dirty, Desc.core] at h
      simp [Desc.withDirty, h]

theorem withChildren_self (d : Desc) : d.withChildren d.children = d := by
  cases d <;> rfl

theorem setView_viewOf (u : Updater) : setView u (viewOf u) = u := by
  cases u
  rfl

theorem viewOf_setView (u : Updater) (v : PopView) :
    viewOf (setView u v) = v := by
  cases v
  rfl

theorem setView_setView (u : Updater) (v w : PopView) :
    setView (setView u v) w = setView u w := by
  cases u
  cases v
  cases w
  rfl

theorem popLevel_reuse (u : Updater) (pShell : Desc)
    (before after : List Desc)
    (rest : List (Desc × List Desc × List Desc))
    (hstack : u.stack = (pShell, before, after) :: rest)
    (hidx : u.index = u.topChildren.length)
    (hdirty : u.topShell.dirty = NOT_DIRTY) :
    popLevel u = setView u ⟨rest, pShell,
      before ++ u.topShell.withChildren u.topChildren :: after,
      before.length + 1⟩ := by
  unfold popLevel
  rw [hstack]
  simp only [destroyRest, hidx, destroyBetween_self,
    withDirty_self _ hdirty]
  rfl

theorem popN_reuse : ∀ (n : Nat) (u : Updater),
    popsOk n u.stack u.topShell u.topChildren u.index = true →
    popN n u = setView u (popSim n (viewOf u)) := by
  intro n
  induction n with
  | zero =>
      intro u h
      simp [popN, popSim, setView_viewOf]
  | succ n ih =>
      intro u h
      cases hstack : u.stack with
      | nil => rw [hstack] at h; simp [popsOk] at h
      | cons frame rest =>
          rcases frame with ⟨pShell, before, after⟩
          rw [hstack] at h
          simp only [popsOk, Bool.and_eq_true, beq_iff_eq] at h
          obtain ⟨⟨hidx, hdirty⟩, hrest⟩ := h
          have hpl := popLevel_reuse u pShell before after rest hstack
            hidx hdirty
          have hstep : popN (n + 1) u = popN n (popLevel u) := rfl
          rw [hstep, hpl]
          have := ih (setView u ⟨rest, pShell,
              before ++ u.topShell.withChildren u.topChildren :: after,
              before.length + 1⟩)
          rw [viewOf_setView] at this
          rw [this hrest, setView_setView]
          congr 1
          have hv : viewOf u = ⟨u.stack, u.topShell, u.topChildren,
            u.index⟩ := rfl
          rw [hv, hstack]
          rfl

theorem popSim_stack : ∀ (n : Nat) (v : PopView),
    popsOk n v.stack v.shell v.cs v.idx = true →
    (popSim n v).stack = v.stack.drop n := by
  intro n
  induction n with
  | zero => intro v h; simp [popSim]
  | succ n ih =>
      intro v h
      cases v with
      | mk stack shell cs idx =>
          cases stack with
          | nil => simp [popsOk] at h
          | cons frame rest =>
              rcases frame with ⟨pShell, before, after⟩
              simp only [popsOk, Bool.and_eq_true, beq_iff_eq] at h
              obtain ⟨⟨hidx, hdirty⟩, hrest⟩ := h
              simp only [popSim]
              rw [ih _ hrest]
              rfl

theorem popSim_reasm : ∀ (n : Nat) (v : PopView),
    popsOk n v.stack v.shell v.cs v.idx = true →
    reasm (popSim n v).stack (popSim n v).shell (popSim n v).cs =
      reasm v.stack v.shell v.cs := by
  intro n
  induction n with
  | zero => intro v h; simp [popSim]
  | succ n ih =>
      intro v h
      cases v with
      | mk stack shell cs idx =>
          cases stack with
          | nil => simp [popsOk] at h
          | cons frame rest =>
              rcases frame with ⟨pShell, before, after⟩
              simp only [popsOk, Bool.and_eq_true, beq_iff_eq] at h
              obtain ⟨⟨hidx, hdirty⟩, hrest⟩ := h
              simp only [popSim]
              rw [ih _ hrest]
              rfl

theorem get?_drop_cons {α : Type} (l : List α) (n : Nat) (a : α)
    (h : l.get? n = some a) : l.drop n = a :: l.drop (n + 1) := by
  rcases List.get?_eq_some.mp h with ⟨h1, h2⟩
  rw [List.drop_eq_getElem_cons h1]
  congr 1

theorem pushLevel_reuse (u : Updater) (m : MarkT) (w : Desc)
    (hcur : u.topChildren.get? u.index = some w)
    (hm : w.matchesMark m = true) :
    pushLevel m u = { u with
      stack := (u.topShell, u.topChildren.take u.index,
        u.topChildren.drop (u.index + 1)) :: u.stack
      topShell := w
      topChildren := w.children
      index := 0 } := by
  have hlt : u.index < u.topChildren.length := by
    rcases List.get?_eq_some.mp hcur with ⟨h1, _⟩
    exact h1
  have hdrop : u.topChildren.drop u.index =
      w :: u.topChildren.drop (u.index + 1) :=
    get?_drop_cons _ _ _ hcur
  have hwin : findMarkIn m u.topChildren u.index
      (min (u.index + 3) u.topChildren.length) = some u.index := by
    unfold findMarkIn
    rw [hdrop]
    have hk : min (u.index + 3) u.topChildren.length - u.index =
        (min (u.index + 3) u.topChildren.length - u.index - 1) + 1 := by
      omega
    rw [hk, List.take_succ_cons]
    rw [List.findIdx?_cons, hm]
    simp
  unfold pushLevel
  rw [hwin]
  simp only [Nat.lt_irrefl, if_false, hcur]

theorem quiet_refl (u : Updater) : Quiet u u :=
  ⟨rfl, rfl, rfl, rfl, rfl, rfl, rfl⟩

theorem quiet_trans {u v w : Updater} (h1 : Quiet u v)
    (h2 : Quiet v w) : Quiet u w := by
  obtain ⟨a1, b1, c1, d1, e1, f1, g1⟩ := h1
  obtain ⟨a2, b2, c2, d2, e2, f2, g2⟩ := h2
  exact ⟨a2.trans a1, b2.trans b1, c2.trans c1, d2.trans d1,
    e2.trans e1, f2.trans f1, g2.trans g1⟩

theorem take_cons_drop {α : Type} (l : List α) (n : Nat) (a : α)
    (h : l.get? n = some a) :
    l.take n ++ a :: l.drop (n + 1) = l := by
  rw [← get?_drop_cons _ _ _ h, List.take_append_drop]

theorem reasm_push (u : Updater) (w : Desc)
    (hcur : u.topChildren.get? u.index = some w) :
    reasm ((u.topShell, u.topChildren.take u.index,
        u.topChildren.drop (u.index + 1)) :: u.stack) w w.children =
      reasmU u := by
  show reasm u.stack u.topShell
    (u.topChildren.take u.index ++
      w.withChildren w.children :: u.topChildren.drop (u.index + 1)) = _
  rw [withChildren_self, take_cons_drop _ _ _ hcur]
  rfl

theorem pushFold_reuse : ∀ (ms : List MarkT) (u : Updater),
    spineOk ms u.topChildren u.index = true →
    Quiet u (ms.foldl (fun v m => pushLevel m v) u) := by
  intro ms
  induction ms with
  | nil => intro u _; exact quiet_refl u
  | cons m ms ih =>
      intro u h
      simp only [spineOk] at h
      cases hcur : u.topChildren.get? u.index with
      | none => rw [hcur] at h; simp at h
      | some w =>
          rw [hcur] at h
          simp only [Bool.and_eq_true] at h
          obtain ⟨hm, hs⟩ := h
          rw [List.foldl_cons, pushLevel_reuse u m w hcur hm]
          refine quiet_trans (v := { u with
            stack := (u.topShell, u.topChildren.take u.index,
              u.topChildren.drop (u.index + 1)) :: u.stack
            topShell := w
            topChildren := w.children
            index := 0 }) ?_ (ih _ hs)
          exact ⟨rfl, rfl, rfl, rfl, rfl, rfl, reasm_push u w hcur⟩

theorem syncKeepGo_le (u : Updater) (marks : List MarkT) :
    ∀ r k, syncKeepGo u marks r k ≤ k + r := by
  intro r
  induction r with
  | zero => intro k; simp [syncKeepGo]
  | succ r ih =>
      intro k
      simp only [syncKeepGo]
      by_cases h : syncKeepCond u marks k = true
      · simp only [h, if_true]
        have := ih (k + 1)
        omega
      · simp only [Bool.not_eq_true] at h
        simp only [h, Bool.false_eq_true, if_false]
        omega

theorem syncKeep_le (u : Updater) (marks : List MarkT) :
    syncKeep u marks ≤ min u.stack.length marks.length := by
  have := syncKeepGo_le u marks (min u.stack.length marks.length) 0
  simpa [syncKeep] using this

theorem syncToMarks_reuse (ms : List MarkT) (u : Updater)
    (h : syncOk ms u = true) : Quiet u (syncToMarks ms u) := by
  simp only [syncOk, Bool.and_eq_true] at h
  obtain ⟨hpops, hspine⟩ := h
  have hkeep := syncKeep_le u ms
  simp only [syncToMarks]
  rw [popN_reuse _ _ hpops]
  have hstk : (popSim (u.stack.length - syncKeep u ms)
      (viewOf u)).stack =
      u.stack.drop (u.stack.length - syncKeep u ms) :=
    popSim_stack _ _ hpops
  have hlen : (setView u (popSim (u.stack.length - syncKeep u ms)
      (viewOf u))).stack.length = syncKeep u ms := by
    show (popSim (u.stack.length - syncKeep u ms)
      (viewOf u)).stack.length = _
    rw [hstk]
    simp only [List.length_drop]
    omega
  rw [hlen]
  have hq1 : Quiet u (setView u (popSim
      (u.stack.length - syncKeep u ms) (viewOf u))) := by
    refine ⟨rfl, rfl, rfl, rfl, rfl, rfl, ?_⟩
    show reasm (popSim _ (viewOf u)).stack
      (popSim _ (viewOf u)).shell (popSim _ (viewOf u)).cs = _
    rw [popSim_reasm _ _ hpops]
    rfl
  refine quiet_trans hq1 (pushFold_reuse _ _ ?_)
  exact hspine

theorem quiet_index {u : Updater} (v : Updater) (n : Nat)
    (h : Quiet u v) : Quiet u { v with index := n } := by
  obtain ⟨a, b, c, d, e, f, g⟩ := h
  exact ⟨a, b, c, d, e, f, g⟩

theorem placeWidget_reuse (w : Deco) (u : Updater)
    (h : widgetAtCursor w u = true) :
    placeWidget w u = { u with index := u.index + 1 } := by
  simp [placeWidget, h]

theorem scan_at_cursor (child : PNode) (outer : List Deco)
    (inner : DecoSet) (u : Updater)
    (hs : scanAtCursor child outer inner u = true) :
    (((u.topChildren.drop u.index).take
        (min u.topChildren.length (u.index + 5) - u.index)).findIdx?
      (fun c => c.matchesNode child outer inner &&
        (idxOfId u.preMatched c.descId).isNone)).map
      (fun j => u.index + j) = some u.index := by
  unfold scanAtCursor at hs
  cases hcur : u.topChildren.get? u.index with
  | none => rw [hcur] at hs; simp at hs
  | some cur =>
      rw [hcur] at hs
      have hlt : u.index < u.topChildren.length := by
        rcases List.get?_eq_some.mp hcur with ⟨h1, _⟩
        exact h1
      rw [get?_drop_cons _ _ _ hcur]
      have hk : min u.topChildren.length (u.index + 5) - u.index =
          (min u.topChildren.length (u.index + 5) - u.index - 1) + 1 :=
        by omega
      rw [hk, List.take_succ_cons, List.findIdx?_cons]
      have hs2 : (cur.matchesNode child outer inner &&
          (idxOfId u.preMatched cur.descId).isNone) = true := hs
      simp [hs2]

theorem fnm_reuse (child : PNode) (outer : List Deco) (inner : DecoSet)
    (index : Int) (u : Updater)
    (h : fnmAtCursor child outer inner index u = true) :
    findNodeMatch child outer inner index u =
      some { u with index := u.index + 1 } := by
  unfold fnmAtCursor at h
  unfold findNodeMatch
  cases hpm : (if index < 0 then none
      else getPreMatch u index.toNat) with
  | some pm =>
      rw [hpm] at h
      simp only [] at h
      by_cases hmn : pm.matchesNode child outer inner = true
      · simp only [hmn, if_true, beq_iff_eq] at h
        simp only [hpm, hmn, if_true, h, destroyBetween_self]
      · simp only [Bool.not_eq_true] at hmn
        simp only [hmn, Bool.false_eq_true, if_false] at h
        simp only [hpm, hmn, Bool.false_eq_true, if_false,
          scan_at_cursor child outer inner u h, destroyBetween_self]
  | none =>
      rw [hpm] at h
      simp only [] at h
      simp only [hpm, scan_at_cursor child outer inner u h,
        destroyBetween_self]

theorem stepEvent_reuse (hv : HostView) (f : Nat) (pn : PNode)
    (ev : IterEvent) (u : Updater)
    (h : stepOk pn ev u = true) :
    Quiet u (stepEvent hv (f + 1) pn pn.inlineContent ev u) := by
  cases ev with
  | widget w i insideNode =>
      simp only [stepOk] at h
      cases hws : widgetSyncMarks pn w i insideNode with
      | some ms =>
          rw [hws] at h
          simp only [Bool.and_eq_true] at h
          obtain ⟨hsync, hwc⟩ := h
          simp only [stepEvent]
          rw [hws]
          rw [placeWidget_reuse _ _ hwc]
          exact quiet_index _ _ (syncToMarks_reuse ms u hsync)
      | none =>
          rw [hws] at h
          simp only [] at h
          simp only [stepEvent]
          rw [hws]
          rw [placeWidget_reuse _ _ h]
          exact quiet_index _ _ (quiet_refl u)
  | node child outer inner i =>
      simp only [stepOk, Bool.and_eq_true] at h
      obtain ⟨hsync, hfnm⟩ := h
      simp only [stepEvent]
      rw [fnm_reuse _ _ _ _ _ hfnm]
      exact quiet_index _ _ (syncToMarks_reuse _ _ hsync)

theorem hacks_skip (u : Updater) (h : hackNeeded u = false) :
    addTextblockHacks u = u := by
  simp [addTextblockHacks, h]

theorem hacks_take (u : Updater) (nx : Desc)
    (h : hackNeeded u = true)
    (hcur : u.topChildren.get? u.index = some nx)
    (hm : nx.matchesHack = true) :
    addTextblockHacks u = { u with index := u.index + 1 } := by
  have hcur2 : u.topChildren[u.index]? = some nx := by
    rw [← List.get?_eq_getElem?]
    exact hcur
  simp [addTextblockHacks, h, hcur2, hm]

theorem runEvents_mirror (hv : HostView) (pn : PNode) :
    ∀ (evs : List IterEvent) (F : Nat) (u : Updater),
    mirrorOk hv F pn evs u = true →
    Quiet u (runEvents hv F pn pn.inlineContent evs u) ∧
    endOk pn (runEvents hv F pn pn.inlineContent evs u) = true := by
  intro evs
  induction evs with
  | nil =>
      intro F u h
      cases F with
      | zero => simp [mirrorOk] at h
      | succ f => exact ⟨quiet_refl u, h⟩
  | cons ev rest ih =>
      intro F u h
      cases F with
      | zero => simp [mirrorOk] at h
      | succ f =>
          have h' : stepOk pn ev u = true ∧ mirrorOk hv f pn rest
              (stepEvent hv f pn pn.inlineContent ev u) = true := by
            simpa [mirrorOk, Bool.and_eq_true] using h
          obtain ⟨hstep, hrest⟩ := h'
          cases f with
          | zero => simp [mirrorOk] at hrest
          | succ f2 =>
              have hq := stepEvent_reuse hv f2 pn ev u hstep
              have hih := ih (f2 + 1)
                (stepEvent hv (f2 + 1) pn pn.inlineContent ev u) hrest
              exact ⟨quiet_trans hq hih.1, hih.2⟩

theorem syncKeep_nil (u : Updater) : syncKeep u [] = 0 := by
  simp [syncKeep, syncKeepGo]

theorem syncEmpty_stack (u : Updater) (h : syncOk [] u = true) :
    (syncToMarks [] u).stack = [] := by
  simp only [syncOk, Bool.and_eq_true] at h
  obtain ⟨hpops, _⟩ := h
  rw [syncKeep_nil, Nat.sub_zero] at hpops
  simp only [syncToMarks, syncKeep_nil, Nat.sub_zero]
  rw [popN_reuse _ _ hpops]
  have hstk : (popSim u.stack.length (viewOf u)).stack =
      (viewOf u).stack.drop u.stack.length := popSim_stack _ _ hpops
  simp only [viewOf] at hstk
  rw [List.drop_length] at hstk
  simp only [List.drop_nil, List.foldl_nil]
  exact hstk

theorem updater_set_ok (u : Updater) : { u with ok := u.ok } = u := by
  cases u
  rfl

theorem reasmU_stack_nil (u : Updater) (h : u.stack = []) :
    reasmU u = u.topChildren := by
  simp [reasmU, h, reasm]

/-- **C2.** A second `updateChildren` pass with the identical document
and decoration set performs zero host-tree mutations — the changed
flag stays false, the DOM sync pass does not run, the child array and
generator are untouched — provided there is no active composition, the
descriptor is clean, and the tree mirrors the event stream step for
step (every mark sync pops only exhausted clean levels and re-enters
the wrapper at the cursor, every node and widget event reuses the
descriptor at the cursor, and the closing phase consumes the tree
exactly).  The counterexample shows the mirror proviso is necessary:
it can fail immediately after a successful first update. -/
theorem c2_second_update_noop (hv : HostView) (F : Nat) (d : Desc) (g : Nat)
    (hcomp : hv.composing = false)
    (hdirty : d.dirty = NOT_DIRTY)
    (hev : (iterEvents F d.pnodeD d.innerDecoD).2 = true)
    (hmir : mirrorOk hv F d.pnodeD
      (iterEvents F d.pnodeD d.innerDecoD).1
      (initUpdater d none g) = true) :
    updateChildren hv (F + 1) d g = ⟨d, g, false, false, true⟩ := by
  simp only [updateChildren]
  rw [hcomp]
  simp only [Bool.false_and, Bool.false_eq_true, if_false]
  rw [hev]
  simp only [Bool.and_true, updater_set_ok]
  have hrun := runEvents_mirror hv d.pnodeD
    (iterEvents F d.pnodeD d.innerDecoD).1 F (initUpdater d none g)
    hmir
  generalize hU1 : runEvents hv F d.pnodeD d.pnodeD.inlineContent
    (iterEvents F d.pnodeD d.innerDecoD).1 (initUpdater d none g) = u1
    at hrun ⊢
  obtain ⟨hq1, hend⟩ := hrun
  simp only [endOk, Bool.and_eq_true] at hend
  obtain ⟨hsync0, hbranch⟩ := hend
  have hq2 := syncToMarks_reuse [] u1 hsync0
  have hstk2 := syncEmpty_stack u1 hsync0
  generalize hU2 : syncToMarks [] u1 = u2 at hq2 hstk2 hbranch ⊢
  have hq02 : Quiet (initUpdater d none g) u2 := quiet_trans hq1 hq2
  obtain ⟨hch, hgen, _, _, _, hok, hre⟩ := hq02
  have htc : u2.topChildren = d.children := by
    have := reasmU_stack_nil u2 hstk2
    rw [← this, hre]
    rfl
  have hfinal : ∀ u3 : Updater, u3.topChildren = d.children →
      u3.changed = false → u3.gen = g → u3.ok = true →
      u3.index = u3.topChildren.length →
      (let u4 := destroyRest u3
       (⟨d.withChildren u4.topChildren, u4.gen, u4.changed,
         u4.changed || decide (d.dirty = CONTENT_DIRTY), u4.ok⟩ :
         UCResult) = ⟨d, g, false, false, true⟩) := by
    intro u3 h1 h2 h3 h4 h5
    have hdr : destroyRest u3 = u3 := by
      unfold destroyRest
      rw [h5]
      exact destroyBetween_self _ _
    simp only [hdr]
    rw [h1, h2, h3, h4, withChildren_self, hdirty]
    simp [NOT_DIRTY, CONTENT_DIRTY]
  cases htb : d.pnodeD.isTextblock with
  | false =>
      rw [htb] at hbranch
      simp only [Bool.false_eq_true, if_false, beq_iff_eq] at hbranch
      simp only [htb, Bool.false_eq_true, if_false]
      exact hfinal u2 htc (hch.trans rfl) (hgen.trans rfl)
        (hok.trans rfl) (by rw [hbranch])
  | true =>
      rw [htb] at hbranch
      simp only [if_true] at hbranch
      simp only [htb, if_true]
      cases hhn : hackNeeded u2 with
      | false =>
          rw [hhn] at hbranch
          simp only [Bool.false_eq_true, if_false, beq_iff_eq]
            at hbranch
          rw [hacks_skip u2 hhn]
          exact hfinal u2 htc (hch.trans rfl) (hgen.trans rfl)
            (hok.trans rfl) (by rw [hbranch])
      | true =>
          rw [hhn] at hbranch
          simp only [if_true, Bool.and_eq_true, beq_iff_eq] at hbranch
          cases hcur : u2.topChildren.get? u2.index with
          | none =>
              rw [hcur] at hbranch
              simp at hbranch
          | some nx =>
              rw [hcur] at hbranch
              simp only [] at hbranch
              obtain ⟨hmh, hlen⟩ := hbranch
              rw [hacks_take u2 nx hhn hcur hmh]
              exact hfinal _ htc (hch.trans rfl) (hgen.trans rfl)
                (hok.trans rfl) hlen


theorem c2_second_update_noop_witness :
    (quietHost.composing = false ∧ abacDesc.dirty = NOT_DIRTY ∧
     (iterEvents 30 abacDesc.pnodeD abacDesc.innerDecoD).2 = true ∧
     mirrorOk quietHost 30 abacDesc.pnodeD
       (iterEvents 30 abacDesc.pnodeD abacDesc.innerDecoD).1
       (initUpdater abacDesc none 500) = true) ∧
    updateChildren quietHost 31 abacDesc 500 =
      ⟨abacDesc, 500, false, false, true⟩ :=
  ⟨⟨by decide, by decide, by decide, by decide⟩,
   c2_second_update_noop quietHost 30 abacDesc 500 (by decide)
     (by decide) (by decide) (by decide)⟩

/-- **C2 counterexample.** A successful update of a paragraph holding
two structurally equal marked text runs, where the reused text
descriptor keeps a stale stored inner-decoration set, is not
idempotent: the second pass (same document, same decorations) matches
the later sibling instead of the cursor descriptor, destroys the
cursor descriptor and re-creates the sibling, so `changed` is true and
the DOM sync pass runs again — and the mirror proviso indeed fails on
that tree. -/
theorem c2_counterexample :
    c2run1.2 = true ∧ (c2run1.1).isSome = true ∧
    (updateChildren quietHost 30 c2d1 200).ok = true ∧
    (updateChildren quietHost 30 c2d1 200).changed = true ∧
    (updateChildren quietHost 30 c2d1 200).rendered = true ∧
    (updateChildren quietHost 30 c2d1 200).desc ≠ c2d1 ∧
    mirrorOk quietHost 30 c2d1.pnodeD
      (iterEvents 30 c2d1.pnodeD c2d1.innerDecoD).1
      (initUpdater c2d1 none 200) = false := by
  decide

end ViewDescModel
